import Mathlib

/-!
Verification of the energy-intelligence-platform ingestion pipeline.

This file gives a shallow embedding of the pipeline's core operations:
the timestamp codec and report-name patterns, the candidate selector and
watermark gate, archive validation, the watermark serialization readers,
the multi-schema flat-file record parser, the idempotent upsert
repository, and the raw-object registry.  Definitions are translated
from the Python sources under scripts/; external-library behaviour
(Postgres upsert semantics, psycopg2 execute_values paging, the regex
engine, CPython strptime and fromisoformat, SHA-256) is modelled at the
boundary and documented at each definition.
-/

/-- Calendar timestamp with second precision, mirroring Python datetime
(naive).  Fields are raw naturals; `ValidDT` states datetime validity. -/
structure DateTime where
  year : Nat
  month : Nat
  day : Nat
  hour : Nat
  minute : Nat
  second : Nat
deriving DecidableEq, Repr

/-- Gregorian leap-year rule, as used by Python datetime. -/
def isLeapYear (y : Nat) : Bool :=
  y % 4 == 0 && (y % 100 != 0 || y % 400 == 0)

/-- Days in a month of the proleptic Gregorian calendar. -/
def daysInMonth (y m : Nat) : Nat :=
  if m == 2 then (if isLeapYear y then 29 else 28)
  else if m == 4 || m == 6 || m == 9 || m == 11 then 30
  else 31

/-- Validity of a datetime value: the exact constraints the Python
datetime constructor enforces (MINYEAR 1 to MAXYEAR 9999). -/
def ValidDT (t : DateTime) : Prop :=
  1 ≤ t.year ∧ t.year ≤ 9999 ∧ 1 ≤ t.month ∧ t.month ≤ 12 ∧
  1 ≤ t.day ∧ t.day ≤ daysInMonth t.year t.month ∧
  t.hour ≤ 23 ∧ t.minute ≤ 59 ∧ t.second ≤ 59

instance (t : DateTime) : Decidable (ValidDT t) := by
  unfold ValidDT; infer_instance

/-- Linearization of a datetime.  For valid datetimes (month below 13,
day below 32, hour below 24, minute and second below 60) comparing keys
is exactly Python datetime comparison (field-lexicographic).  All
datetimes the pipeline compares come out of the datetime constructor,
hence are valid. -/
def dtKey (t : DateTime) : Nat :=
  ((((t.year * 13 + t.month) * 32 + t.day) * 24 + t.hour) * 60 + t.minute) * 60
    + t.second

/-- Model of Python datetime order: nonstrict. -/
def dtLE (a b : DateTime) : Prop := dtKey a ≤ dtKey b

/-- Model of Python datetime order: strict. -/
def dtLT (a b : DateTime) : Prop := dtKey a < dtKey b

instance (a b : DateTime) : Decidable (dtLE a b) := by unfold dtLE; infer_instance

instance (a b : DateTime) : Decidable (dtLT a b) := by unfold dtLT; infer_instance

/-- Character for a decimal digit value. -/
def digitChar (d : Nat) : Char := Char.ofNat (48 + d)

/-- Numeric value of a decimal digit character. -/
def digitVal (c : Char) : Nat := c.toNat - 48

/-- Value of a big-endian decimal digit string. -/
def digitsToNat (cs : List Char) : Nat :=
  cs.foldl (fun a c => a * 10 + digitVal c) 0

/-- Zero-padded fixed-width decimal rendering, as strftime produces for
the 12-digit YYYYMMDDHHMM field. -/
def padDigits : Nat → Nat → List Char
  | 0, _ => []
  | w + 1, n => padDigits w (n / 10) ++ [digitChar (n % 10)]

/-- Model of datetime.strptime with format YYYYMMDDHHMM on a candidate
group.  On a 12-character digit string the strptime field regexes force
the 4-2-2-2-2 split (the per-field alternatives admit at most two digits
and the total must be twelve), the month and time-of-day bounds come
from the field regexes, and day-of-month and year bounds come from the
datetime constructor; any failure raises ValueError, modelled as none. -/
def parseCompact12 (s : String) : Option DateTime :=
  let cs := s.toList
  if cs.length = 12 ∧ cs.all Char.isDigit then
    let t : DateTime :=
      ⟨digitsToNat (cs.take 4), digitsToNat ((cs.drop 4).take 2),
       digitsToNat ((cs.drop 6).take 2), digitsToNat ((cs.drop 8).take 2),
       digitsToNat ((cs.drop 10).take 2), 0⟩
    if ValidDT t then some t else none
  else none

/-- Report types supported by REPORT_PATTERNS in both ingestion scripts. -/
inductive Report where
  | dispatchIS
  | dispatchSCADA
deriving DecidableEq, Repr

/-- Literal prefix of each report naming pattern. -/
def reportLit (r : Report) : List Char :=
  match r with
  | .dispatchIS => ("PUBLIC_DISPATCHIS_").toList
  | .dispatchSCADA => ("PUBLIC_DISPATCHSCADA_").toList

/-- Case-insensitive character equality (re.IGNORECASE on ASCII). -/
def ciEqChar (a b : Char) : Bool := a.toUpper == b.toUpper

/-- Case-insensitive check that the first list opens the second. -/
def ciStarts : List Char → List Char → Bool
  | [], _ => true
  | _ :: _, [] => false
  | p :: ps, c :: cs => ciEqChar p c && ciStarts ps cs

/-- Case-insensitive list equality. -/
def ciEqList : List Char → List Char → Bool
  | [], [] => true
  | a :: as, b :: bs => ciEqChar a b && ciEqList as bs
  | _, _ => false

/-- Model of matching REPORT_PATTERNS: the anchored case-insensitive
regex of literal prefix, a captured 12-digit group, an optional
underscore plus 16-digit suffix, then a .zip extension.  All widths in
the pattern are fixed, so regex backtracking cannot produce any other
decomposition; the optional suffix group either matches fully or the
remainder must be the bare extension. -/
def matchReportGroup (r : Report) (name : String) : Option (List Char) :=
  let cs := name.toList
  let pre := reportLit r
  if ciStarts pre cs then
    let rest := cs.drop pre.length
    let ts := rest.take 12
    let rest2 := rest.drop 12
    if ts.length = 12 ∧ ts.all Char.isDigit then
      if ciEqList rest2 ((".zip").toList) then some ts
      else
        match rest2 with
        | '_' :: r3 =>
          if (r3.take 16).length = 16 ∧ (r3.take 16).all Char.isDigit ∧
              ciEqList (r3.drop 16) ((".zip").toList) then some ts
          else none
        | _ => none
    else none
  else none

/-- Translation of parse_ts_from_name (identical in
scripts/ingestion/ingest_dispatch.py and
scripts/ingestion/pull_dispatch_price_zips.py): match the report
pattern, then strptime the captured group, with ValueError as none. -/
def parse_ts_from_name (name : String) (r : Report) : Option DateTime :=
  match matchReportGroup r name with
  | none => none
  | some ts => parseCompact12 (String.mk ts)

/-- Compact YYYYMMDDHHMM rendering of a timestamp (strftime). -/
def encodeCompactChars (t : DateTime) : List Char :=
  padDigits 4 t.year ++ padDigits 2 t.month ++ padDigits 2 t.day ++
    padDigits 2 t.hour ++ padDigits 2 t.minute

/-- Optional-suffix rendering: nothing, or an underscore and the
16-digit sequence number. -/
def sfxChars : Option (List Char) → List Char
  | none => []
  | some s => '_' :: s

/-- Modelled from the spec: the encode operation of the timestamp codec
(section 4.1, used to construct names for round-trip testing) is not
present under src/; per the spec it renders the canonical name with the
embedded fixed-width timestamp field and the optional trailing 16-digit
sequence suffix. -/
def encode_name (r : Report) (t : DateTime) (sfx : Option (List Char)) : String :=
  String.mk (reportLit r ++ encodeCompactChars t ++ sfxChars sfx ++ (".zip").toList)

/-- Name built from raw zero-padded field digits, used to state that a
pattern-shaped name whose 12-digit field is not a valid calendar
timestamp decodes to none. -/
def encode_digits_name (r : Report) (y mo d h mi : Nat) : String :=
  String.mk (reportLit r ++ padDigits 4 y ++ padDigits 2 mo ++ padDigits 2 d ++
    padDigits 2 h ++ padDigits 2 mi ++ (".zip").toList)

/-- Model of Python string comparison on the character lists: nonstrict
lexicographic order by code point, with a proper prefix sorting first. -/
def pyCharsLE : List Char → List Char → Bool
  | [], _ => true
  | _ :: _, [] => false
  | a :: as, b :: bs =>
    if a.toNat < b.toNat then true
    else if a.toNat = b.toNat then pyCharsLE as bs
    else false

/-- Python string comparison lifted to strings. -/
def pyStrLE (a b : String) : Prop := pyCharsLE a.toList b.toList = true

instance : DecidableRel pyStrLE := fun a b => by unfold pyStrLE; infer_instance

instance : IsTotal String pyStrLE :=
  ⟨fun s t => by
    show pyCharsLE s.toList t.toList = true ∨ pyCharsLE t.toList s.toList = true
    generalize s.toList = a
    generalize t.toList = b
    induction a generalizing b with
    | nil => left; rfl
    | cons x xs ih =>
      cases b with
      | nil => right; rfl
      | cons y ys =>
        simp only [pyCharsLE]
        rcases Nat.lt_trichotomy x.toNat y.toNat with h | h | h
        · left; simp [h]
        · rcases ih ys with h2 | h2
          · left; simp [h, h2]
          · right; simp [h.symm, h2]
        · right; simp [h]⟩

instance : IsTrans String pyStrLE :=
  ⟨fun s t u h1 h2 => by
    revert h1 h2
    show pyCharsLE s.toList t.toList = true → pyCharsLE t.toList u.toList = true →
      pyCharsLE s.toList u.toList = true
    generalize s.toList = a
    generalize t.toList = b
    generalize u.toList = c
    induction a generalizing b c with
    | nil => intro _ _; rfl
    | cons x xs ih =>
      intro h1 h2
      cases b with
      | nil => simp [pyCharsLE] at h1
      | cons y ys =>
        cases c with
        | nil => simp [pyCharsLE] at h2
        | cons z zs =>
          simp only [pyCharsLE] at h1 h2 ⊢
          by_cases exy : x.toNat < y.toNat
          · by_cases eyz : y.toNat < z.toNat
            · simp [show x.toNat < z.toNat by omega]
            · by_cases eyz2 : y.toNat = z.toNat
              · simp [show x.toNat < z.toNat by omega]
              · simp [eyz, eyz2] at h2
          · by_cases exy2 : x.toNat = y.toNat
            · rw [if_neg exy, if_pos exy2] at h1
              by_cases eyz : y.toNat < z.toNat
              · simp [show x.toNat < z.toNat by omega]
              · by_cases eyz2 : y.toNat = z.toNat
                · rw [if_neg eyz, if_pos eyz2] at h2
                  rw [if_neg (by omega : ¬ x.toNat < z.toNat),
                    if_pos (by omega : x.toNat = z.toNat)]
                  exact ih ys zs h1 h2
                · simp [eyz, eyz2] at h2
            · rw [if_neg exy, if_neg exy2] at h1
              exact absurd h1 (by simp)⟩

/-- Translation of pick_candidates (identical in both ingestion
scripts): keep names that parse to a timestamp and pass the strict
watermark gate, then candidates.sort() -- Python sorts the name strings
-- and truncate to max(0, limit) entries.  List.insertionSort is used
for the sort; on the duplicate-free listings the sorted permutation is
unique, so any correct sort agrees with Python's. -/
def gateKeep (r : Report) (gate : Option DateTime) (f : String) : Bool :=
  match parse_ts_from_name f r with
  | none => false
  | some dt =>
    match gate with
    | some g => if dtLE dt g then false else true
    | none => true

def pick_candidates (all_files : List String) (r : Report) (gate : Option DateTime)
    (limit : Int) : List String :=
  (List.insertionSort pyStrLE (all_files.filter (gateKeep r gate))).take
    (max 0 limit).toNat

/-- Structural content of a local file as seen by zipfile: either not a
readable archive (zipfile.BadZipFile on open) or an archive whose
members each pass or fail their CRC self-test.  Other I/O exceptions of
the zipfile library (the zip_error fallback branch) are outside the
model. -/
inductive ZipShape where
  | notAZip
  | archive (members : List (String × Bool))
deriving DecidableEq, Repr

/-- Model of ZipFile.testzip: the name of the first member failing its
CRC check, or none. -/
def firstBadMember : List (String × Bool) → Option String
  | [] => none
  | (nm, ok) :: rest => if ok then firstBadMember rest else some nm

/-- Translation of validate_zip (identical in both ingestion scripts): a
missing path, an empty file (checked before the archive is opened), an
unreadable archive, and a first CRC-failing member give the respective
failure codes; otherwise the file is accepted.  The file argument is
none when the path does not exist, otherwise its byte size and
structural shape.  st_size of a real file is nonnegative, so the size
at most zero test is size equal zero. -/
def validate_zip (file : Option (Nat × ZipShape)) : Bool × String :=
  match file with
  | none => (false, ("file_missing"))
  | some (size, shape) =>
    if size = 0 then (false, ("empty_file"))
    else
      match shape with
      | .notAZip => (false, ("bad_zip"))
      | .archive ms =>
        match firstBadMember ms with
        | some nm => (false, ("bad_member:") ++ nm)
        | none => (true, ("ok"))

/-- Inbox state for one object name: the temporary download path and the
final path. -/
structure DlState where
  tmp : Option (Nat × ZipShape)
  final : Option (Nat × ZipShape)
deriving DecidableEq, Repr

/-- Translation of one download_zip attempt after the body has streamed
to the temporary path: if the final path already exists the attempt is
an idempotent no-op; otherwise the streamed content is validated, on
failure the temporary file is unlinked and then the invalid_zip error is
raised, and on success the temporary path is atomically renamed to the
final path (so the temporary entry is gone in every outcome). -/
def download_zip_attempt (st : DlState) (fetched : Nat × ZipShape) :
    DlState × Except String Unit :=
  if st.final.isSome then (st, Except.ok ())
  else
    let v := validate_zip (some fetched)
    if v.1 then (⟨none, some fetched⟩, Except.ok ())
    else (⟨none, st.final⟩, Except.error (("invalid_zip:") ++ v.2))

/-- Row of the raw_object table
(scripts/utilities/metadata_store.py). -/
structure RawObject where
  id : Nat
  run_id : String
  source_type : String
  path : String
  filename : String
  size_bytes : Nat
  sha256 : List Nat
  discovered_at : Nat
deriving DecidableEq, Repr

/-- The raw_object table plus the id sequence. -/
structure MetaDB where
  rows : List RawObject
  nextId : Nat
deriving DecidableEq, Repr

/-- Model of _sha256_file: SHA-256 is modelled as a collision-free
digest of the byte stream, so the digest is the content itself; the
second component is the byte size, accumulated across chunks. -/
def sha256_file (content : List Nat) : List Nat × Nat := (content, content.length)

/-- The unique-key predicate of the raw_object upsert: ON CONFLICT
(source_type, sha256). -/
def keyMatch (st : String) (sha : List Nat) (x : RawObject) : Bool :=
  x.source_type == st && x.sha256 == sha

/-- Translation of MetadataStore.register_raw_object (the primary
statement; the except branch repeats it for a legacy schema without
size_bytes): hash the file, insert a row, and on conflict of
(source_type, sha256) update only path, filename, size_bytes and
discovered_at of the conflicting row, returning its id.  The upsert is
modelled relationally: Postgres locates the conflicting row through the
unique index, which under the key-uniqueness invariant is the rows
matching the key. -/
def register_raw_object (db : MetaDB) (rid st p f : String) (c : List Nat)
    (t : Nat) : Nat × MetaDB :=
  match db.rows.find? (keyMatch st (sha256_file c).1) with
  | some row =>
    (row.id,
      ⟨db.rows.map (fun x =>
        if keyMatch st (sha256_file c).1 x then
          { x with
            path := p
            filename := f
            size_bytes := (sha256_file c).2
            discovered_at := t }
        else x),
       db.nextId⟩)
  | none =>
    (db.nextId,
      ⟨db.rows ++ [⟨db.nextId, rid, st, p, f, (sha256_file c).2,
        (sha256_file c).1, t⟩],
       db.nextId + 1⟩)

/-- Key-uniqueness invariant of raw_object: at most one row per
(source_type, sha256), and every row id is below the id sequence. -/
def KeyUnique (db : MetaDB) : Prop :=
  (∀ x ∈ db.rows, ∀ y ∈ db.rows,
    x.source_type = y.source_type → x.sha256 = y.sha256 → x = y) ∧
  (∀ x ∈ db.rows, x.id < db.nextId)

instance (db : MetaDB) : Decidable (KeyUnique db) := by
  unfold KeyUnique; infer_instance

/-- Python str.strip() whitespace set. -/
def isPySpace (c : Char) : Bool :=
  (c == ' ') || (c == '\t') || (c == '\n') || (c == '\r') || (c == '\x0b') ||
    (c == '\x0c')

/-- Remove leading and trailing characters satisfying the predicate. -/
def stripEnds (p : Char → Bool) (l : List Char) : List Char :=
  ((l.dropWhile p).reverse.dropWhile p).reverse

/-- Python str.strip() with no argument. -/
def pyStrip (s : String) : String := String.mk (stripEnds isPySpace s.toList)

/-- Model of datetime.fromisoformat restricted to the 19-character
extended form YYYY-MM-DD HH:MM:SS that save_db_watermark writes
(isoformat with a space separator and seconds; T is also accepted).  A
12-digit compact string is rejected by fromisoformat -- after the
8-digit basic-format date and the any-character separator the remaining
3 digits are not a valid time -- matching none here. -/
def parseIso (s : String) : Option DateTime :=
  match s.toList with
  | [y1, y2, y3, y4, '-', m1, m2, '-', d1, d2, sp, h1, h2, ':', i1, i2, ':',
     s1, s2] =>
    if (sp = ' ' ∨ sp = 'T') ∧
        ([y1, y2, y3, y4, m1, m2, d1, d2, h1, h2, i1, i2, s1, s2].all
          Char.isDigit) then
      let t : DateTime :=
        ⟨digitsToNat [y1, y2, y3, y4], digitsToNat [m1, m2],
         digitsToNat [d1, d2], digitsToNat [h1, h2], digitsToNat [i1, i2],
         digitsToNat [s1, s2]⟩
      if ValidDT t then some t else none
    else none
  | _ => none

/-- Translation of load_db_watermark
(scripts/ingestion/pull_dispatch_price_zips.py): a missing or falsy
stored value is none; otherwise strip the string, try fromisoformat,
fall back to strptime YYYYMMDDHHMM, and a failure of both is none. -/
def load_db_watermark (stored : Option String) : Option DateTime :=
  match stored with
  | none => none
  | some s =>
    if s = "" then none
    else
      match parseIso (pyStrip s) with
      | some t => some t
      | none => parseCompact12 (pyStrip s)

/-- The pull script's gating decision for one candidate timestamp
(pick_candidates over the loaded DB watermark): the candidate is
excluded iff a gate exists and the timestamp is at most the gate. -/
def pull_gate_excludes (stored : Option String) (cand : DateTime) : Bool :=
  match load_db_watermark stored with
  | none => false
  | some g => if dtLE cand g then true else false

/-- Exact-prefix check on character lists. -/
def litStarts : List Char → List Char → Bool
  | [], _ => true
  | _ :: _, [] => false
  | p :: ps, c :: cs => (p == c) && litStarts ps cs

/-- Match of the (case-sensitive, unanchored) batch regex
PUBLIC_DISPATCHIS_, 12 digits, underscore at one position. -/
def zipTsHere (cs : List Char) : Option (List Char) :=
  if litStarts (("PUBLIC_DISPATCHIS_").toList) cs then
    let rest := cs.drop 18
    let ts := rest.take 12
    if ts.length = 12 ∧ ts.all Char.isDigit ∧ (rest.drop 12).head? = some '_'
      then some ts else none
  else none

/-- re.search scans for the leftmost match position. -/
def searchZipTs : List Char → Option (List Char)
  | [] => none
  | c :: cs =>
    match zipTsHere (c :: cs) with
    | some ts => some ts
    | none => searchZipTs cs

/-- Translation of parse_zip_ts
(scripts/processing/process_dispatch_price_batch.py): the captured
12-digit group of the first match of PUBLIC_DISPATCHIS_(12
digits)underscore, as a string, or none. -/
def parse_zip_ts (name : String) : Option String :=
  (searchZipTs name.toList).map String.mk

/-- The batch processor's gating decision for one zip (line 248 of
scripts/processing/process_dispatch_price_batch.py): skip iff the raw
stored watermark string and the zip timestamp string are both truthy
and zip_ts is at most the watermark under Python string comparison.  No
parsing of the stored value happens on this path. -/
def batch_gate_skips (stored : Option String) (zipTs : Option String) : Bool :=
  match stored, zipTs with
  | some w, some ts =>
    if w = "" then false
    else if ts = "" then false
    else pyCharsLE ts.toList w.toList
  | _, _ => false

/-- One inbox zip of a batch run: its filename and whether csv members
are extracted from it (extraction and row upserting are irrelevant to
the watermark trajectory). -/
structure ZipEntry where
  name : String
  hasCsv : Bool
deriving DecidableEq, Repr

/-- Translation of the per-zip body of main in
scripts/processing/process_dispatch_price_batch.py, restricted to the
max_zip_ts_processed accumulator: a zip skipped by the gate or without
csv members leaves the accumulator; otherwise a parsed, truthy zip
timestamp strictly greater than the accumulator replaces it. -/
def batch_zip_step (stored : Option String) (acc : Option String)
    (z : ZipEntry) : Option String :=
  let zipTs := parse_zip_ts z.name
  if batch_gate_skips stored zipTs then acc
  else if z.hasCsv = false then acc
  else
    match zipTs with
    | none => acc
    | some ts =>
      if ts = "" then acc
      else
        match acc with
        | none => some ts
        | some m => if pyCharsLE ts.toList m.toList then some m else some ts

/-- The value set_watermark writes at the end of a batch run (none when
no write happens): max_zip_ts_processed when truthy. -/
def batch_run_watermark_write (stored : Option String) (zips : List ZipEntry) :
    Option String :=
  match zips.foldl (batch_zip_step stored) none with
  | none => none
  | some ts => if ts = "" then none else some ts

/-- One selected candidate of a pull/ingest run: its name and whether
download_zip eventually succeeds (fetchOk false means the download
raised after exhausting its retries). -/
structure Candidate where
  name : String
  fetchOk : Bool
deriving DecidableEq, Repr

/-- Outcome of a pull/ingest run: the watermark value written at run end
(none when no write happens) and the process exit status. -/
structure PullOutcome where
  saved : Option DateTime
  exit : Nat
deriving DecidableEq, Repr

/-- Translation of the per-candidate loop body of main (identical logic
in scripts/ingestion/pull_dispatch_price_zips.py and
scripts/ingestion/ingest_dispatch.py): the accumulator is
(newest_dt, any candidate failed).  On success outside dry-run the
parsed timestamp replaces newest_dt when strictly newer; on failure the
name joins the failed list and the loop continues. -/
def pull_loop_step (r : Report) (dryRun : Bool) (acc : Option DateTime × Bool)
    (cand : Candidate) : Option DateTime × Bool :=
  if cand.fetchOk then
    if dryRun then acc
    else
      match parse_ts_from_name cand.name r with
      | none => acc
      | some dt =>
        match acc.1 with
        | none => (some dt, acc.2)
        | some m => if dtLT m dt then (some dt, acc.2) else acc
  else (acc.1, true)

/-- Translation of the run tail of main in both ingestion scripts:
newest_dt starts at the loaded watermark; after the loop the watermark
is written exactly when the run is not a dry run, watermark updates are
not suppressed, newest_dt is set and differs from the loaded value; the
exit status is 1 when any candidate failed, else 0. -/
def pull_run (r : Report) (watermark0 : Option DateTime)
    (cands : List Candidate) (dryRun noUpdate : Bool) : PullOutcome :=
  ⟨if dryRun = false ∧ noUpdate = false ∧
      (cands.foldl (pull_loop_step r dryRun) (watermark0, false)).1.isSome ∧
      (cands.foldl (pull_loop_step r dryRun) (watermark0, false)).1 ≠ watermark0
    then (cands.foldl (pull_loop_step r dryRun) (watermark0, false)).1
    else none,
   if (cands.foldl (pull_loop_step r dryRun) (watermark0, false)).2 then 1
    else 0⟩

/-- Python str.strip applied to a quote character. -/
def stripQuotes (l : List Char) : List Char := stripEnds (· == '"') l

/-- Translation of normalize_header
(scripts/processing/process_dispatch_price.py): strip whitespace, strip
double quotes, uppercase, and remove every space and underscore. -/
def normalize_header (h : String) : String :=
  String.mk (((stripQuotes (stripEnds isPySpace h.toList)).map Char.toUpper).filter
    (fun c => !(c == ' ') && !(c == '_')))

/-- Leading sign of a Python numeric literal. -/
def parseSign : List Char → (Bool × List Char)
  | '-' :: cs => (true, cs)
  | '+' :: cs => (false, cs)
  | cs => (false, cs)

/-- Model of the Python int() builtin on the decimal strings of this
feed: optional sign and a nonempty digit run after stripping
whitespace (underscore grouping and non-decimal bases are outside the
model). -/
def pyIntParse (s : String) : Option Int :=
  let cs := stripEnds isPySpace s.toList
  let sg := parseSign cs
  if sg.2 ≠ [] ∧ sg.2.all Char.isDigit then
    some (if sg.1 then -(Int.ofNat (digitsToNat sg.2))
      else Int.ofNat (digitsToNat sg.2))
  else none

/-- Fuel-based Euclid gcd; the fuel bound makes every application
reduce structurally. -/
def gcdFuel : Nat → Nat → Nat → Nat
  | 0, a, b => a + b
  | _ + 1, 0, b => b
  | fuel + 1, a + 1, b => gcdFuel fuel (b % (a + 1)) (a + 1)

def myGcd (a b : Nat) : Nat := gcdFuel (a + b + 1) a b

/-- Exact rational value of a finite decimal float literal, in lowest
terms with a positive denominator.  Python floats are binary; the exact
decimal value is an idealization adequate here because the pipeline
only compares rrp values produced by this same conversion. -/
structure DecQ where
  num : Int
  den : Nat
deriving DecidableEq, Repr

/-- Normalized decimal rational from a sign and a scaled fraction. -/
def mkDecQ (neg : Bool) (num den : Nat) : DecQ :=
  if num = 0 then ⟨0, 1⟩
  else
    let g := myGcd num den
    ⟨if neg then -(Int.ofNat (num / g)) else Int.ofNat (num / g), den / g⟩

/-- Exponent-and-value tail of the float grammar. -/
def parseExpTail (neg : Bool) (ip fp rest : List Char) : Option DecQ :=
  let scaled := digitsToNat (ip ++ fp)
  let den := 10 ^ fp.length
  match rest with
  | [] => some (mkDecQ neg scaled den)
  | e :: r4 =>
    if e == 'e' || e == 'E' then
      let sg := parseSign r4
      if sg.2 ≠ [] ∧ sg.2.all Char.isDigit then
        some (if sg.1 then mkDecQ neg scaled (den * 10 ^ digitsToNat sg.2)
          else mkDecQ neg (scaled * 10 ^ digitsToNat sg.2) den)
      else none
    else none

/-- Model of the Python float() builtin on finite decimal literals:
optional sign, digits with an optional fractional part (at least one
digit overall), optional decimal exponent; inf, nan and underscore
grouping are outside the model.  A non-numeric string is none
(ValueError). -/
def pyFloatParse (s : String) : Option DecQ :=
  let cs := stripEnds isPySpace s.toList
  let sg := parseSign cs
  let ip := sg.2.takeWhile Char.isDigit
  let r1 := sg.2.dropWhile Char.isDigit
  match r1 with
  | '.' :: r2 =>
    let fp := r2.takeWhile Char.isDigit
    let r3 := r2.dropWhile Char.isDigit
    if ip = [] ∧ fp = [] then none
    else parseExpTail sg.1 ip fp r3
  | _ => if ip = [] then none else parseExpTail sg.1 ip [] r1

/-- Per-subtype column mapping, most recent assignment first (Python
dict assignment semantics: the last assignment to a key wins). -/
abbrev Mapping := List (String × Nat)

def dictInsert (d : Mapping) (k : String) (v : Nat) : Mapping := (k, v) :: d

def dictGet (d : Mapping) (k : String) : Option Nat :=
  (d.find? (fun p => p.1 == k)).map (fun p => p.2)

/-- The per-file schema table: subtype key to mapping, most recent
header first. -/
abbrev Schemas := List (String × Mapping)

def schemasInsert (s : Schemas) (k : String) (m : Mapping) : Schemas := (k, m) :: s

def schemasGet (s : Schemas) (k : String) : Option Mapping :=
  (s.find? (fun p => p.1 == k)).map (fun p => p.2)

/-- Mapping built from a header record: every cell, by index, under its
normalized name; cells normalizing to the empty string are dropped. -/
def buildMapping (row : List String) : Mapping :=
  row.enum.foldl (fun m p =>
    let key := normalize_header p.2
    if key = ("") then m else dictInsert m key p.1) []

/-- Translation of pick: the first alias whose normalized form is in the
mapping wins. -/
def pick (m : Mapping) : List String → Option Nat
  | [] => none
  | c :: rest =>
    match dictGet m (normalize_header c) with
    | some i => some i
    | none => pick m rest

/-- One normalized output row of the record parser. -/
structure PriceRow where
  settlement_date : String
  region_id : String
  rrp : DecQ
  intervention : Int
  run_no : Int
deriving DecidableEq, Repr

/-- Record kind: cell 0, BOM-stripped, stripped, uppercased. -/
def recKind (row : List String) : String :=
  String.mk ((stripEnds isPySpace ((row.headD ("")).toList.dropWhile
    (· == '\uFEFF'))).map Char.toUpper)

/-- Record subtype: cell 1, stripped. -/
def recSubtype (row : List String) : String :=
  String.mk (stripEnds isPySpace (((row.get? 1).getD ("")).toList))

/-- Evaluation of the optional integer fields inside the try block:
`int(row[i]) if idx is not None and row[i] else 0`.  An absent column or
a blank cell gives zero; an out-of-range index or failed int() raises,
modelled as none. -/
def optIntField (row : List String) (idx : Option Nat) : Option Int :=
  match idx with
  | none => some 0
  | some i =>
    match row.get? i with
    | none => none
    | some cell => if cell = ("") then some 0 else pyIntParse cell

/-- The try block of the data-record branch: fetch and strip the
settlement and region cells, coerce the raw rrp cell with float(), and
evaluate the optional integer fields; any failure (IndexError or
ValueError) is none and is counted as one invalid row by the caller. -/
def decodeDataRow (row : List String) (iSettle iRegion iRrp : Nat)
    (iRun iIntv : Option Nat) : Option PriceRow :=
  match row.get? iSettle, row.get? iRegion, row.get? iRrp with
  | some sc, some rc, some pc =>
    match pyFloatParse pc with
    | none => none
    | some rrp =>
      match optIntField row iRun, optIntField row iIntv with
      | some rn, some iv =>
        some ⟨String.mk (stripQuotes (stripEnds isPySpace sc.toList)),
              String.mk (stripQuotes (stripEnds isPySpace rc.toList)),
              rrp, iv, rn⟩
      | _, _ => none
  | _, _, _ => none

def regionAliases : List String := [("REGIONID"), ("REGION_ID"), ("REGION")]

def rrpAliases : List String := [("RRP"), ("REGIONPRICE"), ("PRICE")]

def settleAliases : List String :=
  [("SETTLEMENTDATE"), ("SETTLEMENT_DATE"), ("DATETIME"), ("INTERVAL_DATETIME")]

def runnoAliases : List String := [("RUNNO"), ("RUN_NO")]

def intvAliases : List String := [("INTERVENTION")]

/-- Translation of one loop iteration of process_csv_with_schema
(scripts/processing/process_dispatch_price.py; the batch variant in
process_dispatch_price_batch.py is the same loop but discards the
invalid counter): result is the updated schema table, the emitted row
if any, and whether the invalid counter is incremented.  A record that
is short, a header record, a record of another kind, a data record
without a prior header (or with an empty mapping, which is falsy), or a
data record missing a required logical column changes nothing but the
schema table; a data record whose try block fails counts one invalid
row. -/
def stepRecord (schemas : Schemas) (row : List String) :
    Schemas × Option PriceRow × Bool :=
  if row.length < 2 then (schemas, none, false)
  else if recKind row = ("I") then
    (schemasInsert schemas (recSubtype row) (buildMapping row), none, false)
  else if recKind row ≠ ("D") then (schemas, none, false)
  else
    match schemasGet schemas (recSubtype row) with
    | none => (schemas, none, false)
    | some m =>
      if m = [] then (schemas, none, false)
      else
        match pick m regionAliases, pick m rrpAliases, pick m settleAliases with
        | some iRegion, some iRrp, some iSettle =>
          match decodeDataRow row iSettle iRegion iRrp (pick m runnoAliases)
              (pick m intvAliases) with
          | some pr => (schemas, some pr, false)
          | none => (schemas, none, true)
        | _, _, _ => (schemas, none, false)

/-- The parser loop: ordered rows out plus the invalid counter. -/
def processAux : Schemas → List (List String) → List PriceRow × Nat
  | _, [] => ([], 0)
  | sch, row :: rest =>
    let st := stepRecord sch row
    let res := processAux st.1 rest
    (st.2.1.toList ++ res.1, (if st.2.2 then 1 else 0) + res.2)

/-- Translation of process_csv_with_schema: the schema table starts
empty for each input stream. -/
def process_csv_with_schema (records : List (List String)) :
    List PriceRow × Nat :=
  processAux [] records

/-- Schema table after consuming a prefix of the stream. -/
def schemasAfter (schemas : Schemas) (records : List (List String)) : Schemas :=
  records.foldl (fun s row => (stepRecord s row).1) schemas

/-- Concrete header record of the spec's parser-aliasing scenario. -/
def hdrRow : List String :=
  [("I"), ("DREGION"), ("X"), ("Y"), ("SETTLEMENTDATE"), ("REGIONID"), ("RRP"),
   ("RUNNO"), ("INTERVENTION")]

/-- Concrete data record of the spec's parser-aliasing scenario, with
blank optional integer cells. -/
def dataRow : List String :=
  [("D"), ("DREGION"), ("3"), (""), ("2026/01/01 00:05:00"), ("NSW1"),
   ("35.20"), (""), ("")]

/-- Natural key of one dispatch price row, in the order of the ON
CONFLICT target (settlement_date, region_id, run_no, intervention). -/
def keyOfRow (r : PriceRow) : String × String × Int × Int :=
  (r.settlement_date, r.region_id, r.run_no, r.intervention)

/-- The dispatch_price table as a key-to-rrp relation. -/
abbrev PriceStore := List ((String × String × Int × Int) × DecQ)

def storeLookup (s : PriceStore) (k : String × String × Int × Int) :
    Option DecQ :=
  (s.find? (fun p => p.1 == k)).map (fun p => p.2)

def storeUpdate (s : PriceStore) (k : String × String × Int × Int) (v : DecQ) :
    PriceStore :=
  s.map (fun p => if p.1 == k then (p.1, v) else p)

/-- Relational model of one execution of UPSERT_RETURNING_SQL
(scripts/utilities/dispatch_price_repo.py) on one page of values: a row
with a fresh natural key is inserted and contributes a true flag (xmax
equals 0); a conflicting key with a different rrp is updated in place
and contributes a false flag; a conflicting key with an equal rrp is
excluded by the WHERE clause, so no write happens and no row is
returned.  The model covers pages whose keys are pairwise distinct --
duplicate keys inside one INSERT ... ON CONFLICT DO UPDATE statement
are a Postgres error -- and the theorems below only use such pages. -/
def upsertStmt : PriceStore → List PriceRow → PriceStore × List Bool
  | s, [] => (s, [])
  | s, r :: rest =>
    match storeLookup s (keyOfRow r) with
    | none =>
      let out := upsertStmt ((keyOfRow r, r.rrp) :: s) rest
      (out.1, true :: out.2)
    | some v =>
      if v = r.rrp then upsertStmt s rest
      else
        let out := upsertStmt (storeUpdate s (keyOfRow r) r.rrp) rest
        (out.1, false :: out.2)

/-- Model of the psycopg2 execute_values loop with its default fetch
False, followed by cur.fetchall() as upsert_dispatch_prices does: the
payload is cut into pages of page_size, each page is executed as one
statement, and after the loop the cursor holds only the result set of
the last executed statement, so fetchall returns the last page's rows
and every earlier page's returned rows are discarded.  The structural
fuel is the payload length, which bounds the page count for any
positive page size. -/
def execPagesAux :
    Nat → PriceStore → Nat → List PriceRow → List Bool → PriceStore × List Bool
  | 0, s, _, _, last => (s, last)
  | fuel + 1, s, p, rows, last =>
    if rows.isEmpty then (s, last)
    else
      let out := upsertStmt s (rows.take p)
      execPagesAux fuel out.1 p (rows.drop p) out.2

def execute_values_fetchall (s : PriceStore) (pageSize : Nat)
    (rows : List PriceRow) : PriceStore × List Bool :=
  execPagesAux rows.length s pageSize rows []

/-- Translation of upsert_dispatch_prices
(scripts/utilities/dispatch_price_repo.py): an empty payload
short-circuits to (0, 0); otherwise execute_values runs with page_size
5000 and the function counts true flags as inserted and false flags as
updated among the rows fetchall returns. -/
def upsert_dispatch_prices (s : PriceStore) (rows : List PriceRow) :
    PriceStore × (Nat × Nat) :=
  if rows.isEmpty then (s, (0, 0))
  else
    let out := execute_values_fetchall s 5000 rows
    (out.1, (out.2.countP (fun b => b), out.2.countP (fun b => !b)))

/-- Row family with pairwise distinct natural keys (distinct run_no). -/
def mkRow (i : Nat) : PriceRow :=
  ⟨("2024/01/01 00:05:00"), ("NSW1"), ⟨1, 1⟩, 0, Int.ofNat i⟩

lemma toList_mk (l : List Char) : (String.mk l).toList = l := rfl

lemma length_padDigits (w n : Nat) : (padDigits w n).length = w := by
  induction w generalizing n with
  | zero => rfl
  | succ w ih => simp [padDigits, ih]

lemma isDigit_digitChar (d : Nat) (h : d < 10) : (digitChar d).isDigit = true := by
  interval_cases d <;> decide

lemma digitVal_digitChar (d : Nat) (h : d < 10) : digitVal (digitChar d) = d := by
  interval_cases d <;> decide

lemma all_isDigit_padDigits (w n : Nat) : (padDigits w n).all Char.isDigit = true := by
  induction w generalizing n with
  | zero => rfl
  | succ w ih =>
    simp [padDigits, List.all_append, ih, isDigit_digitChar _ (Nat.mod_lt n (by norm_num))]

lemma digitsToNat_concat (l : List Char) (c : Char) :
    digitsToNat (l ++ [c]) = digitsToNat l * 10 + digitVal c := by
  simp [digitsToNat, List.foldl_append]

lemma digitsToNat_padDigits (w n : Nat) (h : n < 10 ^ w) :
    digitsToNat (padDigits w n) = n := by
  induction w generalizing n with
  | zero => simp [padDigits, digitsToNat] at h ⊢; omega
  | succ w ih =>
    have h1 : n / 10 < 10 ^ w := by
      have hp : (10 : Nat) ^ (w + 1) = 10 ^ w * 10 := pow_succ 10 w
      exact Nat.div_lt_of_lt_mul (by omega)
    rw [padDigits, digitsToNat_concat, ih _ h1,
      digitVal_digitChar _ (Nat.mod_lt n (by norm_num))]
    omega

lemma ciEqChar_refl (c : Char) : ciEqChar c c = true := by simp [ciEqChar]

lemma ciStarts_append_self (l r : List Char) : ciStarts l (l ++ r) = true := by
  induction l with
  | nil => rfl
  | cons c cs ih => simp [ciStarts, ciEqChar_refl, ih]

lemma ciEqList_refl (l : List Char) : ciEqList l l = true := by
  induction l with
  | nil => rfl
  | cons c cs ih => simp [ciEqList, ciEqChar_refl, ih]

lemma matchReportGroup_encode (r : Report) (body : List Char) (hb : body.length = 12)
    (hdig : body.all Char.isDigit = true) (sfx : Option (List Char))
    (hs : ∀ s, sfx = some s → s.length = 16 ∧ s.all Char.isDigit = true) :
    matchReportGroup r
      (String.mk (reportLit r ++ body ++ sfxChars sfx ++ (".zip").toList)) =
      some body := by
  cases sfx with
  | none =>
    have e : reportLit r ++ body ++ sfxChars none ++ (".zip").toList =
        reportLit r ++ (body ++ (".zip").toList) := by
      simp [sfxChars, List.append_assoc]
    rw [e]
    simp [matchReportGroup, toList_mk, ciStarts_append_self, List.drop_left,
      List.take_left' hb, List.drop_left' hb, hb, hdig, ciEqList_refl]
  | some s =>
    obtain ⟨hl, hd⟩ := hs s rfl
    have e : reportLit r ++ body ++ sfxChars (some s) ++ (".zip").toList =
        reportLit r ++ (body ++ ('_' :: (s ++ (".zip").toList))) := by
      simp [sfxChars, List.append_assoc]
    rw [e]
    simp only [matchReportGroup, toList_mk, ciStarts_append_self, List.drop_left,
      List.take_left' hb, List.drop_left' hb, if_true]
    simp [hb, hdig, ciEqList, ciEqChar, List.take_left' hl, List.drop_left' hl,
      hl, hd, ciEqList_refl]

lemma parseCompact12_encode (y mo d h mi : Nat) (hy : y < 10000) (hmo : mo < 100)
    (hd : d < 100) (hh : h < 100) (hmi : mi < 100) :
    parseCompact12 (String.mk (padDigits 4 y ++ (padDigits 2 mo ++ (padDigits 2 d ++
      (padDigits 2 h ++ padDigits 2 mi))))) =
      if ValidDT ⟨y, mo, d, h, mi, 0⟩ then some ⟨y, mo, d, h, mi, 0⟩ else none := by
  set L := padDigits 4 y ++ (padDigits 2 mo ++ (padDigits 2 d ++
    (padDigits 2 h ++ padDigits 2 mi))) with hL
  have hlen : L.length = 12 := by simp [hL, length_padDigits]
  have hall : L.all Char.isDigit = true := by
    simp [hL, List.all_append, all_isDigit_padDigits]
  have e4 : L.take 4 = padDigits 4 y := List.take_left' (length_padDigits 4 y)
  have r4 : L.drop 4 = padDigits 2 mo ++ (padDigits 2 d ++ (padDigits 2 h ++
      padDigits 2 mi)) := List.drop_left' (length_padDigits 4 y)
  have hL6 : L = (padDigits 4 y ++ padDigits 2 mo) ++ (padDigits 2 d ++
      (padDigits 2 h ++ padDigits 2 mi)) := by simp [hL, List.append_assoc]
  have r6 : L.drop 6 = padDigits 2 d ++ (padDigits 2 h ++ padDigits 2 mi) := by
    rw [hL6]; exact List.drop_left' (by simp [length_padDigits])
  have hL8 : L = ((padDigits 4 y ++ padDigits 2 mo) ++ padDigits 2 d) ++
      (padDigits 2 h ++ padDigits 2 mi) := by simp [hL, List.append_assoc]
  have r8 : L.drop 8 = padDigits 2 h ++ padDigits 2 mi := by
    rw [hL8]; exact List.drop_left' (by simp [length_padDigits])
  have hL10 : L = (((padDigits 4 y ++ padDigits 2 mo) ++ padDigits 2 d) ++
      padDigits 2 h) ++ padDigits 2 mi := by simp [hL, List.append_assoc]
  have r10 : L.drop 10 = padDigits 2 mi := by
    rw [hL10]; exact List.drop_left' (by simp [length_padDigits])
  have vy : digitsToNat (L.take 4) = y := by
    rw [e4]; exact digitsToNat_padDigits 4 y (by norm_num at hy ⊢; omega)
  have vmo : digitsToNat ((L.drop 4).take 2) = mo := by
    rw [r4, List.take_left' (length_padDigits 2 mo)]
    exact digitsToNat_padDigits 2 mo (by norm_num at hmo ⊢; omega)
  have vd : digitsToNat ((L.drop 6).take 2) = d := by
    rw [r6, List.take_left' (length_padDigits 2 d)]
    exact digitsToNat_padDigits 2 d (by norm_num at hd ⊢; omega)
  have vh : digitsToNat ((L.drop 8).take 2) = h := by
    rw [r8, List.take_left' (length_padDigits 2 h)]
    exact digitsToNat_padDigits 2 h (by norm_num at hh ⊢; omega)
  have vmi : digitsToNat ((L.drop 10).take 2) = mi := by
    rw [r10, List.take_of_length_le (by simp [length_padDigits])]
    exact digitsToNat_padDigits 2 mi (by norm_num at hmi ⊢; omega)
  simp [parseCompact12, toList_mk, hlen, hall, vy, vmo, vd, vh, vmi]

lemma daysInMonth_le_31 (y m : Nat) : daysInMonth y m ≤ 31 := by
  unfold daysInMonth
  split
  · split <;> omega
  · split <;> omega

/-- C9: for every supported report naming pattern and every valid
calendar timestamp with minute precision, encoding the timestamp into an
object name (12-digit YYYYMMDDHHMM field, with or without the optional
16-digit suffix) and then decoding the name yields the original
timestamp; a name whose 12-digit field is not a valid calendar timestamp
decodes to none, and so does a name the pattern matcher rejects. -/
theorem c9_codec_roundtrip (r : Report) (t : DateTime) (sfx : Option (List Char))
    (hv : ValidDT t) (hsec : t.second = 0)
    (hs : ∀ s, sfx = some s → s.length = 16 ∧ s.all Char.isDigit = true) :
    parse_ts_from_name (encode_name r t sfx) r = some t ∧
    (∀ y mo d h mi : Nat, y < 10000 → mo < 100 → d < 100 → h < 100 → mi < 100 →
      ¬ ValidDT ⟨y, mo, d, h, mi, 0⟩ →
      parse_ts_from_name (encode_digits_name r y mo d h mi) r = none) ∧
    (∀ name : String, matchReportGroup r name = none →
      parse_ts_from_name name r = none) := by
  obtain ⟨h1, h2, h3, h4, h5, h6, h7, h8, h9⟩ := hv
  refine ⟨?_, ?_, ?_⟩
  · have hb : (encodeCompactChars t).length = 12 := by
      simp [encodeCompactChars, length_padDigits]
    have hdig : (encodeCompactChars t).all Char.isDigit = true := by
      simp [encodeCompactChars, List.all_append, all_isDigit_padDigits]
    have hm := matchReportGroup_encode r (encodeCompactChars t) hb hdig sfx hs
    simp only [parse_ts_from_name, encode_name]
    rw [hm]
    show parseCompact12 (String.mk (encodeCompactChars t)) = some t
    have hpc := parseCompact12_encode t.year t.month t.day t.hour t.minute
      (by omega) (by omega)
      (by have := daysInMonth_le_31 t.year t.month; omega) (by omega) (by omega)
    have ht : (⟨t.year, t.month, t.day, t.hour, t.minute, 0⟩ : DateTime) = t := by
      cases t; simp_all
    rw [ht] at hpc
    rw [show encodeCompactChars t = padDigits 4 t.year ++ (padDigits 2 t.month ++
      (padDigits 2 t.day ++ (padDigits 2 t.hour ++ padDigits 2 t.minute))) from by
      simp [encodeCompactChars, List.append_assoc]]
    rw [hpc, if_pos]
    exact ⟨h1, h2, h3, h4, h5, h6, h7, h8, h9⟩
  · intro y mo d h mi hy hmo hd hh hmi hbad
    have hb : (padDigits 4 y ++ (padDigits 2 mo ++ (padDigits 2 d ++
        (padDigits 2 h ++ padDigits 2 mi)))).length = 12 := by
      simp [length_padDigits]
    have hdig : (padDigits 4 y ++ (padDigits 2 mo ++ (padDigits 2 d ++
        (padDigits 2 h ++ padDigits 2 mi)))).all Char.isDigit = true := by
      simp [List.all_append, all_isDigit_padDigits]
    have hshape : encode_digits_name r y mo d h mi =
        String.mk (reportLit r ++ (padDigits 4 y ++ (padDigits 2 mo ++
          (padDigits 2 d ++ (padDigits 2 h ++ padDigits 2 mi)))) ++
          sfxChars none ++ (".zip").toList) := by
      simp [encode_digits_name, sfxChars, List.append_assoc]
    have hm := matchReportGroup_encode r _ hb hdig none (by intro s h; cases h)
    simp only [parse_ts_from_name, hshape]
    rw [hm]
    show parseCompact12 (String.mk (padDigits 4 y ++ (padDigits 2 mo ++
      (padDigits 2 d ++ (padDigits 2 h ++ padDigits 2 mi))))) = none
    rw [parseCompact12_encode y mo d h mi hy hmo hd hh hmi, if_neg hbad]
  · intro name h
    simp [parse_ts_from_name, h]

/-- Witness for C9 at a concrete timestamp and suffixed name. -/
theorem c9_codec_roundtrip_witness :
    ValidDT ⟨2026, 1, 1, 0, 5, 0⟩ ∧
    parse_ts_from_name
      (encode_name .dispatchIS ⟨2026, 1, 1, 0, 5, 0⟩
        (some (("0000000000000001").toList))) .dispatchIS =
      some ⟨2026, 1, 1, 0, 5, 0⟩ := by
  refine ⟨by decide, ?_⟩
  exact (c9_codec_roundtrip .dispatchIS ⟨2026, 1, 1, 0, 5, 0⟩ _ (by decide) rfl
    (by intro s h; cases h; exact ⟨by decide, by decide⟩)).1

lemma gateKeep_iff (r : Report) (gate : Option DateTime) (f : String) :
    gateKeep r gate f = true ↔
      ∃ dt, parse_ts_from_name f r = some dt ∧ ∀ g, gate = some g → dtLT g dt := by
  unfold gateKeep
  cases hp : parse_ts_from_name f r with
  | none => simp
  | some dt =>
    cases gate with
    | none => simp
    | some g =>
      by_cases hle : dtLE dt g
      · simp only [if_pos hle]
        constructor
        · intro h; exact absurd h (by simp)
        · rintro ⟨dt2, hdt2, hg⟩
          have hdd : dt = dt2 := by injection hdt2
          subst hdd
          have := hg g rfl
          unfold dtLE at hle
          unfold dtLT at this
          omega
      · simp only [if_neg hle]
        constructor
        · intro _
          refine ⟨dt, rfl, ?_⟩
          intro g2 hgg
          have hgg2 : g = g2 := by injection hgg
          subst hgg2
          unfold dtLE at hle
          unfold dtLT
          omega
        · intro _; trivial

/-- C4, amended: a candidate is selected iff its name parses to a
timestamp strictly greater than the gate (all parseable candidates when
the gate is none); the output is sorted ascending by name (Python sorts
the name strings, not the embedded timestamps), is truncated to at most
max(0, limit) entries, and the truncated output is a prefix of the
untruncated sorted selection.  The selector is a pure function of its
inputs. -/
theorem c4_selector_properties (all_files : List String) (r : Report)
    (gate : Option DateTime) (limit : Int) :
    (∀ f, f ∈ pick_candidates all_files r gate (Int.ofNat all_files.length) ↔
      (f ∈ all_files ∧ ∃ dt, parse_ts_from_name f r = some dt ∧
        ∀ g, gate = some g → dtLT g dt)) ∧
    List.Sorted pyStrLE (pick_candidates all_files r gate limit) ∧
    (pick_candidates all_files r gate limit).length ≤ (max 0 limit).toNat ∧
    ∃ k, pick_candidates all_files r gate limit =
      (pick_candidates all_files r gate (Int.ofNat all_files.length)).take k := by
  have hfull : pick_candidates all_files r gate (Int.ofNat all_files.length) =
      List.insertionSort pyStrLE (all_files.filter (gateKeep r gate)) := by
    unfold pick_candidates
    have h1 : (max 0 (Int.ofNat all_files.length)).toNat = all_files.length := by
      simp [Int.ofNat_eq_natCast]
    rw [h1]
    apply List.take_of_length_le
    calc (List.insertionSort pyStrLE (all_files.filter (gateKeep r gate))).length
        = (all_files.filter (gateKeep r gate)).length :=
          (List.perm_insertionSort pyStrLE _).length_eq
      _ ≤ all_files.length := List.length_filter_le _ _
  refine ⟨?_, ?_, ?_, ?_⟩
  · intro f
    rw [hfull, (List.perm_insertionSort pyStrLE _).mem_iff, List.mem_filter,
      gateKeep_iff]
  · unfold pick_candidates
    exact List.Pairwise.sublist (List.take_sublist _ _)
      (List.sorted_insertionSort pyStrLE _)
  · unfold pick_candidates
    exact List.length_take_le _ _
  · exact ⟨(max 0 limit).toNat, by rw [hfull]; rfl⟩

/-- C4 counterexample: with a listing that mixes letter case (the
patterns are compiled with IGNORECASE), the selected output is sorted by
name, which here is descending in embedded timestamp, refuting the
claim that output is sorted ascending by embedded timestamp. -/
theorem c4_counterexample :
    pick_candidates
        [("PUBLIC_DISPATCHIS_202601010005.zip"),
         ("public_dispatchis_202601010000.zip")] .dispatchIS none 50 =
      [("PUBLIC_DISPATCHIS_202601010005.zip"),
       ("public_dispatchis_202601010000.zip")] ∧
    parse_ts_from_name ("PUBLIC_DISPATCHIS_202601010005.zip") .dispatchIS =
      some ⟨2026, 1, 1, 0, 5, 0⟩ ∧
    parse_ts_from_name ("public_dispatchis_202601010000.zip") .dispatchIS =
      some ⟨2026, 1, 1, 0, 0, 0⟩ ∧
    dtLT ⟨2026, 1, 1, 0, 0, 0⟩ ⟨2026, 1, 1, 0, 5, 0⟩ := by
  decide

/-- C7, amended: archive validation classifies a missing file as
file_missing, a zero-byte file as empty_file before any archive open, a
structurally unreadable archive as bad_zip (the code uses the reason
code bad_zip, not bad_archive), a member failing its CRC self-test as
bad_member with the member name, and accepts a structurally valid
archive with no members; on validation failure the temporary download
file is deleted before the error is raised. -/
theorem c7_validate_zip (size : Nat) (ms : List (String × Bool)) (nm : String)
    (shape : ZipShape) (st : DlState) (fetched : Nat × ZipShape)
    (hsz : 0 < size) (hbad : firstBadMember ms = some nm)
    (hnofinal : st.final = none)
    (hfail : (validate_zip (some fetched)).1 = false) :
    validate_zip none = (false, ("file_missing")) ∧
    validate_zip (some (0, shape)) = (false, ("empty_file")) ∧
    validate_zip (some (size, ZipShape.notAZip)) = (false, ("bad_zip")) ∧
    validate_zip (some (size, ZipShape.archive ms)) =
      (false, ("bad_member:") ++ nm) ∧
    validate_zip (some (size, ZipShape.archive [])) = (true, ("ok")) ∧
    (download_zip_attempt st fetched).1.tmp = none ∧
    (download_zip_attempt st fetched).2 =
      Except.error (("invalid_zip:") ++ (validate_zip (some fetched)).2) := by
  have hsz' : size ≠ 0 := by omega
  refine ⟨rfl, by simp [validate_zip], ?_, ?_, ?_, ?_, ?_⟩
  · simp [validate_zip, hsz']
  · simp [validate_zip, hsz', hbad]
  · simp [validate_zip, hsz', firstBadMember]
  · simp [download_zip_attempt, hnofinal, hfail]
  · simp [download_zip_attempt, hnofinal, hfail]

/-- Witness for C7 at concrete files. -/
theorem c7_validate_zip_witness :
    0 < 5 ∧ firstBadMember [(("a.csv"), false)] = some ("a.csv") ∧
    (DlState.mk none none).final = none ∧
    (validate_zip (some (5, ZipShape.notAZip))).1 = false ∧
    validate_zip (some (5, ZipShape.archive [])) = (true, ("ok")) := by
  refine ⟨by decide, by decide, rfl, by decide, ?_⟩
  exact (c7_validate_zip 5 [(("a.csv"), false)] ("a.csv") ZipShape.notAZip
    ⟨none, none⟩ (5, ZipShape.notAZip) (by decide) (by decide) rfl
    (by decide)).2.2.2.2.1

/-- C7 counterexample: a nonempty file that is not a readable archive is
rejected with reason code bad_zip, not bad_archive as claimed. -/
theorem c7_counterexample :
    validate_zip (some (5, ZipShape.notAZip)) = (false, ("bad_zip")) ∧
    ("bad_zip") ≠ ("bad_archive") := by
  decide

lemma sha256_file_fst (c : List Nat) : (sha256_file c).1 = c := rfl

lemma sha256_file_snd (c : List Nat) : (sha256_file c).2 = c.length := rfl

lemma keyMatch_iff (st : String) (sha : List Nat) (x : RawObject) :
    keyMatch st sha x = true ↔ x.source_type = st ∧ x.sha256 = sha := by
  simp [keyMatch]

lemma find?_fresh (l : List RawObject) (st : String) (sha : List Nat)
    (h : ∀ x ∈ l, ¬(x.source_type = st ∧ x.sha256 = sha)) :
    l.find? (keyMatch st sha) = none := by
  rw [List.find?_eq_none]
  intro x hx
  simpa [keyMatch_iff] using h x hx

lemma register_fresh (db : MetaDB) (rid st p f : String) (c : List Nat) (t : Nat)
    (h : ∀ x ∈ db.rows, ¬(x.source_type = st ∧ x.sha256 = c)) :
    register_raw_object db rid st p f c t =
      (db.nextId,
        ⟨db.rows ++ [⟨db.nextId, rid, st, p, f, c.length, c, t⟩],
         db.nextId + 1⟩) := by
  unfold register_raw_object
  rw [sha256_file_fst, find?_fresh db.rows st c h]
  rfl

lemma register_found (db : MetaDB) (rid st p f : String) (c : List Nat) (t : Nat)
    (row : RawObject) (hinv : KeyUnique db) (hmem : row ∈ db.rows)
    (hst : row.source_type = st) (hsha : row.sha256 = c) :
    register_raw_object db rid st p f c t =
      (row.id,
        ⟨db.rows.map (fun x =>
          if x = row then
            { row with
              path := p
              filename := f
              size_bytes := c.length
              discovered_at := t }
          else x),
         db.nextId⟩) := by
  obtain ⟨hu, _⟩ := hinv
  have hrowmatch : keyMatch st c row = true := (keyMatch_iff st c row).mpr ⟨hst, hsha⟩
  have hfind2 : db.rows.find? (keyMatch st c) = some row := by
    cases hfind : db.rows.find? (keyMatch st c) with
    | none =>
      rw [List.find?_eq_none] at hfind
      exact absurd hrowmatch (hfind row hmem)
    | some row0 =>
      have hmatch0 := (keyMatch_iff st c row0).mp (List.find?_some hfind)
      have hmem0 := List.mem_of_find?_eq_some hfind
      have heq : row0 = row :=
        hu row0 hmem0 row hmem (by rw [hmatch0.1, hst]) (by rw [hmatch0.2, hsha])
      rw [heq]
  have hmapeq : db.rows.map (fun x =>
      if keyMatch st c x then
        { x with
          path := p
          filename := f
          size_bytes := c.length
          discovered_at := t }
      else x) =
    db.rows.map (fun x =>
      if x = row then
        { row with
          path := p
          filename := f
          size_bytes := c.length
          discovered_at := t }
      else x) := by
    apply List.map_congr_left
    intro x hx
    by_cases hxr : x = row
    · subst hxr; simp [hrowmatch]
    · have hxm : keyMatch st c x = false := by
        by_contra hc
        have hxb : keyMatch st c x = true := by
          revert hc; cases keyMatch st c x <;> simp
        have hxt := (keyMatch_iff st c x).mp hxb
        exact hxr (hu x hx row hmem (by rw [hxt.1, hst]) (by rw [hxt.2, hsha]))
      simp [hxm, hxr]
  unfold register_raw_object
  simp only [sha256_file_fst, sha256_file_snd]
  split
  · next row0 heq =>
    rw [hfind2] at heq
    have : row = row0 := by injection heq
    subst this
    rw [hmapeq]
  · next heq =>
    rw [hfind2] at heq
    cases heq

lemma register_preserves_keyUnique (db : MetaDB) (rid st p f : String)
    (c : List Nat) (t : Nat) (hinv : KeyUnique db) :
    KeyUnique (register_raw_object db rid st p f c t).2 := by
  obtain ⟨hu, hid⟩ := hinv
  unfold register_raw_object
  simp only [sha256_file_fst, sha256_file_snd]
  split
  · next row0 heq =>
    have keyfields : ∀ x : RawObject,
        ((if keyMatch st c x = true then
            { x with
              path := p
              filename := f
              size_bytes := c.length
              discovered_at := t }
          else x).source_type = x.source_type ∧
         (if keyMatch st c x = true then
            { x with
              path := p
              filename := f
              size_bytes := c.length
              discovered_at := t }
          else x).sha256 = x.sha256 ∧
         (if keyMatch st c x = true then
            { x with
              path := p
              filename := f
              size_bytes := c.length
              discovered_at := t }
          else x).id = x.id) := by
      intro x
      split <;> exact ⟨rfl, rfl, rfl⟩
    refine ⟨?_, ?_⟩
    · intro x hx y hy hstq hshaq
      rw [List.mem_map] at hx hy
      obtain ⟨x0, hx0, rfl⟩ := hx
      obtain ⟨y0, hy0, rfl⟩ := hy
      rw [(keyfields x0).1, (keyfields y0).1] at hstq
      rw [(keyfields x0).2.1, (keyfields y0).2.1] at hshaq
      rw [hu x0 hx0 y0 hy0 hstq hshaq]
    · intro x hx
      rw [List.mem_map] at hx
      obtain ⟨x0, hx0, rfl⟩ := hx
      rw [(keyfields x0).2.2]
      exact hid x0 hx0
  · next heq =>
    have hnone := List.find?_eq_none.mp heq
    refine ⟨?_, ?_⟩
    · intro x hx y hy hstq hshaq
      rcases List.mem_append.mp hx with hx1 | hx1 <;>
        rcases List.mem_append.mp hy with hy1 | hy1
      · exact hu x hx1 y hy1 hstq hshaq
      · have hy2 : y = ⟨db.nextId, rid, st, p, f, c.length, c, t⟩ :=
          List.mem_singleton.mp hy1
        subst hy2
        exact absurd ((keyMatch_iff st c x).mpr ⟨hstq, hshaq⟩) (hnone x hx1)
      · have hx2 : x = ⟨db.nextId, rid, st, p, f, c.length, c, t⟩ :=
          List.mem_singleton.mp hx1
        subst hx2
        exact absurd ((keyMatch_iff st c y).mpr ⟨hstq.symm, hshaq.symm⟩)
          (hnone y hy1)
      · rw [List.mem_singleton.mp hx1, List.mem_singleton.mp hy1]
    · intro x hx
      rcases List.mem_append.mp hx with hx1 | hx1
      · have := hid x hx1
        show x.id < db.nextId + 1
        omega
      · rw [List.mem_singleton.mp hx1]
        show db.nextId < db.nextId + 1
        omega

/-- C5: registering two files with byte-identical content but different
paths and filenames under one source_type yields exactly one raw_object
row for that content, returns the same identity both times, and the
re-registration updates path, filename and discovered_at; registering
two files with different contents from a fresh state yields two
distinct rows; and register_raw_object preserves the at-most-one-row-per
(source_type, sha256) invariant. -/
theorem c5_content_dedup (db : MetaDB) (run1 run2 st p1 p2 f1 f2 : String)
    (content c2 : List Nat) (t1 t2 : Nat)
    (hinv : KeyUnique db)
    (hfresh : ∀ x ∈ db.rows, ¬(x.source_type = st ∧ x.sha256 = content))
    (hfresh2 : ∀ x ∈ db.rows, ¬(x.source_type = st ∧ x.sha256 = c2))
    (hne : content ≠ c2) :
    (register_raw_object (register_raw_object db run1 st p1 f1 content t1).2
        run2 st p2 f2 content t2).1 =
      (register_raw_object db run1 st p1 f1 content t1).1 ∧
    ((register_raw_object (register_raw_object db run1 st p1 f1 content t1).2
        run2 st p2 f2 content t2).2.rows.filter
      (keyMatch st content)).length = 1 ∧
    (∃ x ∈ (register_raw_object (register_raw_object db run1 st p1 f1 content
        t1).2 run2 st p2 f2 content t2).2.rows,
      keyMatch st content x = true ∧ x.path = p2 ∧ x.filename = f2 ∧
        x.discovered_at = t2) ∧
    (register_raw_object (register_raw_object db run1 st p1 f1 content t1).2
        run2 st p2 f2 c2 t2).2.rows.length = db.rows.length + 2 ∧
    (∀ (db2 : MetaDB) (rid st2 p3 f3 : String) (c3 : List Nat) (t3 : Nat),
      KeyUnique db2 → KeyUnique (register_raw_object db2 rid st2 p3 f3 c3 t3).2) := by
  have h1 := register_fresh db run1 st p1 f1 content t1 hfresh
  have hinv1 : KeyUnique (register_raw_object db run1 st p1 f1 content t1).2 :=
    register_preserves_keyUnique db run1 st p1 f1 content t1 hinv
  rw [h1] at hinv1
  have hnewmem : (⟨db.nextId, run1, st, p1, f1, content.length, content, t1⟩ :
      RawObject) ∈ (db.rows ++
        [⟨db.nextId, run1, st, p1, f1, content.length, content, t1⟩]) :=
    List.mem_append_right _ (List.mem_singleton_self _)
  have h2 := register_found
    ⟨db.rows ++ [⟨db.nextId, run1, st, p1, f1, content.length, content, t1⟩],
      db.nextId + 1⟩ run2 st p2 f2 content t2
    ⟨db.nextId, run1, st, p1, f1, content.length, content, t1⟩
    hinv1 hnewmem rfl rfl
  have hmapid : db.rows.map (fun x =>
      if x = (⟨db.nextId, run1, st, p1, f1, content.length, content, t1⟩ :
          RawObject) then
        (⟨db.nextId, run1, st, p2, f2, content.length, content, t2⟩ : RawObject)
      else x) = db.rows := by
    have hcong : ∀ x ∈ db.rows, (if x =
        (⟨db.nextId, run1, st, p1, f1, content.length, content, t1⟩ :
          RawObject) then
        (⟨db.nextId, run1, st, p2, f2, content.length, content, t2⟩ : RawObject)
      else x) = x := by
      intro x hx
      have hlt := hinv.2 x hx
      have hxne : x ≠
          (⟨db.nextId, run1, st, p1, f1, content.length, content, t1⟩ :
            RawObject) := by
        intro hc
        rw [hc] at hlt
        simp at hlt
      rw [if_neg hxne]
    calc db.rows.map _ = db.rows.map id := List.map_congr_left hcong
      _ = db.rows := List.map_id db.rows
  have hrows2 : (register_raw_object (register_raw_object db run1 st p1 f1
      content t1).2 run2 st p2 f2 content t2).2.rows =
      db.rows ++ [⟨db.nextId, run1, st, p2, f2, content.length, content, t2⟩] := by
    rw [h1]
    rw [h2]
    show (db.rows ++
      [(⟨db.nextId, run1, st, p1, f1, content.length, content, t1⟩ :
        RawObject)]).map _ = _
    rw [List.map_append]
    exact congrArg₂ (· ++ ·) hmapid (by simp)
  refine ⟨?_, ?_, ?_, ?_, ?_⟩
  · rw [h1, h2]
  · rw [hrows2, List.filter_append]
    have hfe : db.rows.filter (keyMatch st content) = [] := by
      rw [List.filter_eq_nil_iff]
      intro x hx
      simpa [keyMatch_iff] using hfresh x hx
    rw [hfe]
    simp [keyMatch]
  · rw [hrows2]
    refine ⟨⟨db.nextId, run1, st, p2, f2, content.length, content, t2⟩,
      List.mem_append_right _ (List.mem_singleton_self _), ?_, rfl, rfl, rfl⟩
    simp [keyMatch]
  · have hfreshb : ∀ x ∈ (register_raw_object db run1 st p1 f1 content t1).2.rows,
        ¬(x.source_type = st ∧ x.sha256 = c2) := by
      rw [h1]
      intro x hx
      rcases List.mem_append.mp hx with hx1 | hx1
      · exact hfresh2 x hx1
      · rw [List.mem_singleton.mp hx1]
        rintro ⟨-, hsh⟩
        exact hne hsh
    have h3 := register_fresh (register_raw_object db run1 st p1 f1 content t1).2
      run2 st p2 f2 c2 t2 hfreshb
    rw [h3]
    show ((register_raw_object db run1 st p1 f1 content t1).2.rows ++ _).length = _
    rw [h1]
    simp
  · intro db2 rid st2 p3 f3 c3 t3 h
    exact register_preserves_keyUnique db2 rid st2 p3 f3 c3 t3 h

/-- Witness for C5 on a concrete fresh store and one-byte contents. -/
theorem c5_content_dedup_witness :
    KeyUnique ⟨[], 0⟩ ∧ ([0] : List Nat) ≠ [1] ∧
    (register_raw_object (register_raw_object ⟨[], 0⟩ ("r1") ("zip") ("p1")
        ("a.zip") [0] 1).2 ("r2") ("zip") ("p2") ("b.zip") [0] 2).1 =
      (register_raw_object ⟨[], 0⟩ ("r1") ("zip") ("p1") ("a.zip") [0] 1).1 := by
  refine ⟨by decide, by decide, ?_⟩
  exact (c5_content_dedup ⟨[], 0⟩ ("r1") ("r2") ("zip") ("p1") ("p2") ("a.zip")
    ("b.zip") [0] [1] 1 2 (by decide) (by intro x hx; cases hx)
    (by intro x hx; cases hx) (by decide)).1

/-- C10: re-registering content whose (source_type, sha256) key already
exists, with a different run_id, returns the stored row's id and
rewrites only path, filename, size_bytes and discovered_at of that row:
run_id, source_type, sha256, id, every other row, and the id sequence
are unchanged. -/
theorem c10_reregistration_frame (db : MetaDB) (run2 st p2 f2 : String)
    (c : List Nat) (t2 : Nat) (row : RawObject)
    (hinv : KeyUnique db) (hmem : row ∈ db.rows)
    (hst : row.source_type = st) (hsha : row.sha256 = c) :
    (register_raw_object db run2 st p2 f2 c t2).1 = row.id ∧
    (register_raw_object db run2 st p2 f2 c t2).2.nextId = db.nextId ∧
    (register_raw_object db run2 st p2 f2 c t2).2.rows =
      db.rows.map (fun x =>
        if x = row then
          (⟨row.id, row.run_id, row.source_type, p2, f2, c.length, row.sha256,
            t2⟩ : RawObject)
        else x) := by
  have h := register_found db run2 st p2 f2 c t2 row hinv hmem hst hsha
  rw [h]
  exact ⟨rfl, rfl, rfl⟩

/-- Witness for C10 on a concrete one-row store. -/
theorem c10_reregistration_frame_witness :
    KeyUnique ⟨[⟨7, ("runA"), ("zip"), ("old"), ("o.zip"), 1, [0], 5⟩], 8⟩ ∧
    (register_raw_object ⟨[⟨7, ("runA"), ("zip"), ("old"), ("o.zip"), 1, [0], 5⟩],
        8⟩ ("runB") ("zip") ("new") ("n.zip") [0] 9).1 = 7 := by
  refine ⟨by decide, ?_⟩
  exact (c10_reregistration_frame
    ⟨[⟨7, ("runA"), ("zip"), ("old"), ("o.zip"), 1, [0], 5⟩], 8⟩
    ("runB") ("zip") ("new") ("n.zip") [0] 9
    ⟨7, ("runA"), ("zip"), ("old"), ("o.zip"), 1, [0], 5⟩
    (by decide) (by decide) rfl rfl).1

/-- C3 failing run: with the watermark stored in the ISO encoding that
the pull script writes, the batch processor's raw-string gate does not
recognise a time-earlier January zip as old, processes it, and at run
end writes the compact timestamp 202601010000, which is earlier in time
than the stored 2026-02-05 21:10:00.  The value written is therefore
earlier than the stored value, refuting monotonicity. -/
theorem c3_watermark_regression :
    batch_run_watermark_write (some ("2026-02-05 21:10:00"))
      [⟨("PUBLIC_DISPATCHIS_202601010000_0000000000000001.zip"), true⟩] =
      some ("202601010000") ∧
    load_db_watermark (some ("2026-02-05 21:10:00")) =
      some ⟨2026, 2, 5, 21, 10, 0⟩ ∧
    parseCompact12 ("202601010000") = some ⟨2026, 1, 1, 0, 0, 0⟩ ∧
    dtLT ⟨2026, 1, 1, 0, 0, 0⟩ ⟨2026, 2, 5, 21, 10, 0⟩ := by
  decide

/-- C8 failing comparison: the two readers of the same persisted
watermark row disagree when the value is stored in ISO form.  The pull
script's reader parses both encodings to the same timestamp and excludes
a January candidate under either; the batch processor's gate compares
raw strings and fails to skip the same January zip when the stored value
is ISO, while skipping it when the stored value is compact. -/
theorem c8_encoding_divergence :
    load_db_watermark (some ("2026-02-05 21:10:00")) =
      load_db_watermark (some ("202602052110")) ∧
    pull_gate_excludes (some ("2026-02-05 21:10:00")) ⟨2026, 1, 1, 0, 0, 0⟩ =
      true ∧
    pull_gate_excludes (some ("202602052110")) ⟨2026, 1, 1, 0, 0, 0⟩ = true ∧
    batch_gate_skips (some ("202602052110")) (some ("202601010000")) = true ∧
    batch_gate_skips (some ("2026-02-05 21:10:00")) (some ("202601010000")) =
      false := by
  decide

/-- C1 failing run: the first candidate fails after exhausting retries,
the second (newer) succeeds; the run exits with status 1 yet writes the
watermark at the succeeding candidate's timestamp, past the failed
candidate, which a later gated run would therefore never retry.  The
claim that the persisted watermark is left unchanged on partial failure
is false. -/
theorem c1_counterexample :
    pull_run .dispatchIS none
      [⟨("PUBLIC_DISPATCHIS_202601010000.zip"), false⟩,
       ⟨("PUBLIC_DISPATCHIS_202601010005.zip"), true⟩] false false =
      ⟨some ⟨2026, 1, 1, 0, 5, 0⟩, 1⟩ ∧
    (some (⟨2026, 1, 1, 0, 5, 0⟩ : DateTime) ≠ (none : Option DateTime)) ∧
    parse_ts_from_name ("PUBLIC_DISPATCHIS_202601010000.zip") .dispatchIS =
      some ⟨2026, 1, 1, 0, 0, 0⟩ ∧
    dtLT ⟨2026, 1, 1, 0, 0, 0⟩ ⟨2026, 1, 1, 0, 5, 0⟩ := by
  decide

lemma step_fail (r : Report) (d : Bool) (acc : Option DateTime × Bool)
    (c : Candidate) (h : c.fetchOk = false) :
    pull_loop_step r d acc c = (acc.1, true) := by
  unfold pull_loop_step
  rw [h]
  simp

lemma step_ok (r : Report) (acc : Option DateTime × Bool) (c : Candidate)
    (h : c.fetchOk = true) :
    (pull_loop_step r false acc c).2 = acc.2 ∧
    ((pull_loop_step r false acc c).1 = acc.1 ∨
      ∃ dt, parse_ts_from_name c.name r = some dt ∧
        (pull_loop_step r false acc c).1 = some dt) ∧
    (∀ dt, parse_ts_from_name c.name r = some dt →
      ∃ m, (pull_loop_step r false acc c).1 = some m ∧ dtLE dt m) ∧
    (∀ g, acc.1 = some g →
      ∃ m, (pull_loop_step r false acc c).1 = some m ∧ dtLE g m) := by
  unfold pull_loop_step
  rw [if_pos h, if_neg (by simp : ¬(false = true))]
  cases hp : parse_ts_from_name c.name r with
  | none =>
    refine ⟨rfl, Or.inl rfl, ?_, ?_⟩
    · intro dt hdt; cases hdt
    · intro g hg
      exact ⟨g, hg, by unfold dtLE; omega⟩
  | some dt =>
    cases hacc : acc.1 with
    | none =>
      refine ⟨rfl, Or.inr ⟨dt, rfl, rfl⟩, ?_, ?_⟩
      · intro dt2 hdt2
        have : dt = dt2 := by injection hdt2
        subst this
        exact ⟨dt, rfl, by unfold dtLE; omega⟩
      · intro g hg; cases hg
    | some m =>
      dsimp only
      by_cases hlt : dtLT m dt
      · rw [if_pos hlt]
        refine ⟨rfl, Or.inr ⟨dt, rfl, rfl⟩, ?_, ?_⟩
        · intro dt2 hdt2
          have : dt = dt2 := by injection hdt2
          subst this
          exact ⟨dt, rfl, by unfold dtLE; omega⟩
        · intro g hg
          have : m = g := by injection hg
          subst this
          unfold dtLT at hlt
          exact ⟨dt, rfl, by unfold dtLE; omega⟩
      · rw [if_neg hlt]
        refine ⟨rfl, Or.inl hacc, ?_, ?_⟩
        · intro dt2 hdt2
          have : dt = dt2 := by injection hdt2
          subst this
          unfold dtLT at hlt
          exact ⟨m, hacc, by unfold dtLE; omega⟩
        · intro g hg
          have : m = g := by injection hg
          subst this
          exact ⟨m, hacc, by unfold dtLE; omega⟩

lemma pull_fold_spec (r : Report) (cands : List Candidate)
    (acc : Option DateTime × Bool) :
    ((cands.foldl (pull_loop_step r false) acc).2 = true ↔
      (acc.2 = true ∨ ∃ c ∈ cands, c.fetchOk = false)) ∧
    ((cands.foldl (pull_loop_step r false) acc).1 = acc.1 ∨
      ∃ c ∈ cands, ∃ w, c.fetchOk = true ∧
        parse_ts_from_name c.name r = some w ∧
        (cands.foldl (pull_loop_step r false) acc).1 = some w) ∧
    (∀ c ∈ cands, c.fetchOk = true →
      ∀ dt, parse_ts_from_name c.name r = some dt →
        ∀ w, (cands.foldl (pull_loop_step r false) acc).1 = some w →
          dtLE dt w) ∧
    (∀ g, acc.1 = some g →
      ∀ w, (cands.foldl (pull_loop_step r false) acc).1 = some w → dtLE g w) := by
  induction cands generalizing acc with
  | nil =>
    refine ⟨by simp, Or.inl rfl, ?_, ?_⟩
    · intro c hc; cases hc
    · intro g hg w hw
      simp only [List.foldl_nil] at hw
      rw [hg] at hw
      have : g = w := by injection hw
      subst this
      unfold dtLE; omega
  | cons c cs ih =>
    by_cases hok : c.fetchOk = true
    · obtain ⟨hsnd, hfst, hbound, hmono⟩ := step_ok r acc c hok
      obtain ⟨ih1, ih2, ih3, ih4⟩ := ih (pull_loop_step r false acc c)
      rw [List.foldl_cons]
      refine ⟨?_, ?_, ?_, ?_⟩
      · rw [ih1, hsnd]
        constructor
        · rintro (h | ⟨c2, hc2, hf2⟩)
          · exact Or.inl h
          · exact Or.inr ⟨c2, List.mem_cons_of_mem c hc2, hf2⟩
        · rintro (h | ⟨c2, hc2, hf2⟩)
          · exact Or.inl h
          · rcases List.mem_cons.mp hc2 with rfl | hc2
            · rw [hok] at hf2; cases hf2
            · exact Or.inr ⟨c2, hc2, hf2⟩
      · rcases ih2 with h | ⟨c2, hc2, w, hfk, hpw, hres⟩
        · rw [h]
          rcases hfst with h2 | ⟨dt, hdt, h2⟩
          · exact Or.inl h2
          · exact Or.inr ⟨c, List.mem_cons_self c cs, dt, hok, hdt, h2⟩
        · exact Or.inr ⟨c2, List.mem_cons_of_mem c hc2, w, hfk, hpw, hres⟩
      · intro c2 hc2 hfk dt hdt w hw
        rcases List.mem_cons.mp hc2 with rfl | hc2
        · obtain ⟨m, hm, hdm⟩ := hbound dt hdt
          have := ih4 m hm w hw
          unfold dtLE at *
          omega
        · exact ih3 c2 hc2 hfk dt hdt w hw
      · intro g hg w hw
        obtain ⟨m, hm, hgm⟩ := hmono g hg
        have := ih4 m hm w hw
        unfold dtLE at *
        omega
    · have hfalse : c.fetchOk = false := by
        cases hcc : c.fetchOk
        · rfl
        · exact absurd hcc hok
      rw [List.foldl_cons, step_fail r false acc c hfalse]
      obtain ⟨ih1, ih2, ih3, ih4⟩ := ih (acc.1, true)
      refine ⟨?_, ?_, ?_, ?_⟩
      · rw [ih1]
        constructor
        · intro _
          exact Or.inr ⟨c, List.mem_cons_self c cs, hfalse⟩
        · intro _
          simp
      · rcases ih2 with h | ⟨c2, hc2, w, hfk, hpw, hres⟩
        · exact Or.inl h
        · exact Or.inr ⟨c2, List.mem_cons_of_mem c hc2, w, hfk, hpw, hres⟩
      · intro c2 hc2 hfk dt hdt w hw
        rcases List.mem_cons.mp hc2 with rfl | hc2
        · rw [hfk] at hfalse; cases hfalse
        · exact ih3 c2 hc2 hfk dt hdt w hw
      · intro g hg w hw
        exact ih4 g hg w hw

/-- C1, amended: on a run with watermark updates enabled and no dry-run
flag, the exit status is 1 exactly when some selected candidate failed
after exhausting retries; but the watermark is not left unchanged:
whenever a value is written it is the maximum successfully downloaded
candidate timestamp -- written even when other candidates failed, and
never earlier than any successful timestamp or the prior stored value;
no write happens only when the newest successful timestamp equals the
prior watermark, in particular when every candidate failed. -/
theorem c1_partial_failure_behavior (r : Report) (w0 : Option DateTime)
    (cands : List Candidate) :
    ((pull_run r w0 cands false false).exit = 1 ↔
      ∃ c ∈ cands, c.fetchOk = false) ∧
    (∀ w, (pull_run r w0 cands false false).saved = some w →
      some w ≠ w0 ∧
      (∃ c ∈ cands, c.fetchOk = true ∧
        parse_ts_from_name c.name r = some w) ∧
      (∀ c ∈ cands, c.fetchOk = true →
        ∀ dt, parse_ts_from_name c.name r = some dt → dtLE dt w) ∧
      (∀ g, w0 = some g → dtLE g w)) ∧
    ((∀ c ∈ cands, c.fetchOk = false) →
      (pull_run r w0 cands false false).saved = none) := by
  obtain ⟨h1, h2, h3, h4⟩ := pull_fold_spec r cands (w0, false)
  refine ⟨?_, ?_, ?_⟩
  · constructor
    · intro he
      by_cases hb : (cands.foldl (pull_loop_step r false) (w0, false)).2 = true
      · rcases h1.mp hb with h | h
        · cases h
        · exact h
      · exfalso
        have hb2 : (cands.foldl (pull_loop_step r false) (w0, false)).2 = false := by
          revert hb
          cases (cands.foldl (pull_loop_step r false) (w0, false)).2 <;> simp
        have hz : (pull_run r w0 cands false false).exit = 0 := by
          show (if (cands.foldl (pull_loop_step r false) (w0, false)).2 = true
            then 1 else 0) = 0
          rw [hb2]
          rfl
        omega
    · intro hex
      have hb := h1.mpr (Or.inr hex)
      show (if (cands.foldl (pull_loop_step r false) (w0, false)).2 = true
        then 1 else 0) = 1
      rw [hb]
      rfl
  · intro w hw
    have hw2 : (if (false = false ∧ false = false ∧
        (cands.foldl (pull_loop_step r false) (w0, false)).1.isSome ∧
        (cands.foldl (pull_loop_step r false) (w0, false)).1 ≠ w0)
      then (cands.foldl (pull_loop_step r false) (w0, false)).1
      else none) = some w := hw
    split at hw2
    · next hcond =>
      obtain ⟨-, -, hsome, hne⟩ := hcond
      refine ⟨?_, ?_, ?_, ?_⟩
      · rw [← hw2]; exact hne
      · rcases h2 with h | ⟨c2, hc2, w2, hfk, hpw, hres⟩
        · exact absurd h hne
        · rw [hres] at hw2
          have : w2 = w := by injection hw2
          subst this
          exact ⟨c2, hc2, hfk, hpw⟩
      · intro c2 hc2 hfk dt hdt
        exact h3 c2 hc2 hfk dt hdt w hw2
      · intro g hg
        exact h4 g (by rw [hg]) w hw2
    · cases hw2
  · intro hall
    have hres1 : (cands.foldl (pull_loop_step r false) (w0, false)).1 = w0 := by
      rcases h2 with h | ⟨c2, hc2, w2, hfk, hpw, hres⟩
      · exact h
      · rw [hall c2 hc2] at hfk
        cases hfk
    show (if (false = false ∧ false = false ∧
        (cands.foldl (pull_loop_step r false) (w0, false)).1.isSome ∧
        (cands.foldl (pull_loop_step r false) (w0, false)).1 ≠ w0)
      then (cands.foldl (pull_loop_step r false) (w0, false)).1
      else none) = none
    rw [if_neg]
    rintro ⟨-, -, -, hne⟩
    exact hne hres1

lemma processAux_append (sch : Schemas) (l1 l2 : List (List String)) :
    (processAux sch (l1 ++ l2)).1 =
      (processAux sch l1).1 ++ (processAux (schemasAfter sch l1) l2).1 ∧
    (processAux sch (l1 ++ l2)).2 =
      (processAux sch l1).2 + (processAux (schemasAfter sch l1) l2).2 := by
  induction l1 generalizing sch with
  | nil => simp [processAux, schemasAfter]
  | cons r l1 ih =>
    obtain ⟨ih1, ih2⟩ := ih ((stepRecord sch r).1)
    simp only [List.cons_append, processAux, schemasAfter, List.foldl_cons,
      List.append_eq]
    constructor
    · rw [ih1]
      simp [schemasAfter, List.append_assoc]
    · rw [ih2]
      simp [schemasAfter]
      omega

lemma processStep_decompose (pre post : List (List String)) (row : List String)
    (emit : Option PriceRow) (binc : Bool)
    (hstep : stepRecord (schemasAfter [] pre) row =
      (schemasAfter [] pre, emit, binc)) :
    (process_csv_with_schema (pre ++ row :: post)).1 =
      (process_csv_with_schema pre).1 ++
        (emit.toList ++ (processAux (schemasAfter [] pre) post).1) ∧
    (process_csv_with_schema (pre ++ row :: post)).2 =
      (process_csv_with_schema pre).2 +
        ((if binc then 1 else 0) + (processAux (schemasAfter [] pre) post).2) := by
  obtain ⟨ha1, ha2⟩ := processAux_append [] pre (row :: post)
  unfold process_csv_with_schema
  constructor
  · rw [ha1]
    congr 1
    simp [processAux, hstep]
  · rw [ha2]
    congr 1
    simp [processAux, hstep]

lemma processTail_decompose (pre post : List (List String)) :
    (process_csv_with_schema (pre ++ post)).1 =
      (process_csv_with_schema pre).1 ++
        (processAux (schemasAfter [] pre) post).1 ∧
    (process_csv_with_schema (pre ++ post)).2 =
      (process_csv_with_schema pre).2 +
        (processAux (schemasAfter [] pre) post).2 := by
  obtain ⟨ha1, ha2⟩ := processAux_append [] pre post
  exact ⟨ha1, ha2⟩

lemma stepRecord_noheader (sch : Schemas) (row : List String)
    (h2 : 2 ≤ row.length) (hD : recKind row = ("D"))
    (hget : schemasGet sch (recSubtype row) = none) :
    stepRecord sch row = (sch, none, false) := by
  unfold stepRecord
  rw [if_neg (by omega : ¬ row.length < 2),
    if_neg (show ¬ recKind row = ("I") by rw [hD]; decide),
    if_neg (show ¬ recKind row ≠ ("D") by rw [hD]; simp), hget]

lemma stepRecord_missing (sch : Schemas) (row : List String) (m : Mapping)
    (h2 : 2 ≤ row.length) (hD : recKind row = ("D"))
    (hget : schemasGet sch (recSubtype row) = some m)
    (hmiss : m = [] ∨ pick m regionAliases = none ∨ pick m rrpAliases = none ∨
      pick m settleAliases = none) :
    stepRecord sch row = (sch, none, false) := by
  unfold stepRecord
  rw [if_neg (by omega : ¬ row.length < 2),
    if_neg (show ¬ recKind row = ("I") by rw [hD]; decide),
    if_neg (show ¬ recKind row ≠ ("D") by rw [hD]; simp), hget]
  dsimp only
  by_cases hm : m = []
  · rw [if_pos hm]
  · rw [if_neg hm]
    rcases hmiss with h | h | h | h
    · exact absurd h hm
    · split
      · next a b c heq => rw [h] at b; cases b
      · rfl
    · split
      · next a b c heq => rw [h] at c; cases c
      · rfl
    · split
      · next a b c heq => rw [h] at heq; cases heq
      · rfl

lemma stepRecord_data (sch : Schemas) (row : List String) (m : Mapping)
    (iRegion iRrp iSettle : Nat)
    (h2 : 2 ≤ row.length) (hD : recKind row = ("D"))
    (hget : schemasGet sch (recSubtype row) = some m) (hm : m ≠ [])
    (hr : pick m regionAliases = some iRegion)
    (hp : pick m rrpAliases = some iRrp)
    (hs : pick m settleAliases = some iSettle) :
    stepRecord sch row =
      (match decodeDataRow row iSettle iRegion iRrp (pick m runnoAliases)
          (pick m intvAliases) with
        | some pr => (sch, some pr, false)
        | none => (sch, none, true)) := by
  unfold stepRecord
  rw [if_neg (by omega : ¬ row.length < 2),
    if_neg (show ¬ recKind row = ("I") by rw [hD]; decide),
    if_neg (show ¬ recKind row ≠ ("D") by rw [hD]; simp), hget]
  dsimp only
  rw [if_neg hm, hr, hp, hs]

/-- C6: for every input stream, the parser returns the ordered sequence
of successfully decoded rows plus an invalid-row count; a data record
whose subtype has no previously seen header in the same stream, or that
is missing a required logical column, produces no output row, is not
counted, and does not abort parsing of the rest of the stream; a data
record whose value cells fail type coercion produces no output row, is
counted as one invalid row, and parsing continues; a successfully
decoded row is appended in stream order; optional integer fields
(run_no, intervention) default to zero when their column is absent or
their cell is blank. -/
theorem c6_parser_behavior (pre post : List (List String)) (row : List String) :
    (2 ≤ row.length → recKind row = ("D") →
      schemasGet (schemasAfter [] pre) (recSubtype row) = none →
      (process_csv_with_schema (pre ++ row :: post)).1 =
        (process_csv_with_schema (pre ++ post)).1 ∧
      (process_csv_with_schema (pre ++ row :: post)).2 =
        (process_csv_with_schema (pre ++ post)).2) ∧
    (∀ m : Mapping, 2 ≤ row.length → recKind row = ("D") →
      schemasGet (schemasAfter [] pre) (recSubtype row) = some m →
      (m = [] ∨ pick m regionAliases = none ∨ pick m rrpAliases = none ∨
        pick m settleAliases = none) →
      (process_csv_with_schema (pre ++ row :: post)).1 =
        (process_csv_with_schema (pre ++ post)).1 ∧
      (process_csv_with_schema (pre ++ row :: post)).2 =
        (process_csv_with_schema (pre ++ post)).2) ∧
    (∀ (m : Mapping) (iRegion iRrp iSettle : Nat), 2 ≤ row.length →
      recKind row = ("D") →
      schemasGet (schemasAfter [] pre) (recSubtype row) = some m → m ≠ [] →
      pick m regionAliases = some iRegion → pick m rrpAliases = some iRrp →
      pick m settleAliases = some iSettle →
      decodeDataRow row iSettle iRegion iRrp (pick m runnoAliases)
        (pick m intvAliases) = none →
      (process_csv_with_schema (pre ++ row :: post)).1 =
        (process_csv_with_schema (pre ++ post)).1 ∧
      (process_csv_with_schema (pre ++ row :: post)).2 =
        (process_csv_with_schema (pre ++ post)).2 + 1) ∧
    (∀ (m : Mapping) (iRegion iRrp iSettle : Nat) (pr : PriceRow),
      2 ≤ row.length → recKind row = ("D") →
      schemasGet (schemasAfter [] pre) (recSubtype row) = some m → m ≠ [] →
      pick m regionAliases = some iRegion → pick m rrpAliases = some iRrp →
      pick m settleAliases = some iSettle →
      decodeDataRow row iSettle iRegion iRrp (pick m runnoAliases)
        (pick m intvAliases) = some pr →
      (process_csv_with_schema (pre ++ row :: post)).1 =
        (process_csv_with_schema pre).1 ++
          pr :: (processAux (schemasAfter [] pre) post).1 ∧
      (process_csv_with_schema (pre ++ row :: post)).2 =
        (process_csv_with_schema pre).2 +
          (processAux (schemasAfter [] pre) post).2) ∧
    ((∀ (row2 : List String) (i : Nat), row2.get? i = some ("") →
        optIntField row2 (some i) = some 0) ∧
      (∀ row2 : List String, optIntField row2 none = some 0) ∧
      (∀ (row2 : List String) (iS iR iP : Nat) (iRun iIntv : Option Nat)
          (pr : PriceRow),
        decodeDataRow row2 iS iR iP iRun iIntv = some pr →
        optIntField row2 iRun = some pr.run_no ∧
        optIntField row2 iIntv = some pr.intervention)) := by
  refine ⟨?_, ?_, ?_, ?_, ?_, ?_, ?_⟩
  · intro h2 hD hget
    have hstep := stepRecord_noheader (schemasAfter [] pre) row h2 hD hget
    obtain ⟨e1, e2⟩ := processStep_decompose pre post row none false hstep
    obtain ⟨f1, f2⟩ := processTail_decompose pre post
    constructor
    · rw [e1, f1]; simp
    · rw [e2, f2]
      have hz : (if (false = true) then 1 else 0) = 0 := rfl
      rw [hz]
      omega
  · intro m h2 hD hget hmiss
    have hstep := stepRecord_missing (schemasAfter [] pre) row m h2 hD hget hmiss
    obtain ⟨e1, e2⟩ := processStep_decompose pre post row none false hstep
    obtain ⟨f1, f2⟩ := processTail_decompose pre post
    constructor
    · rw [e1, f1]; simp
    · rw [e2, f2]
      have hz : (if (false = true) then 1 else 0) = 0 := rfl
      rw [hz]
      omega
  · intro m iRegion iRrp iSettle h2 hD hget hm hr hp hs hdec
    have hstep : stepRecord (schemasAfter [] pre) row =
        (schemasAfter [] pre, none, true) := by
      rw [stepRecord_data (schemasAfter [] pre) row m iRegion iRrp iSettle h2 hD
        hget hm hr hp hs, hdec]
    obtain ⟨e1, e2⟩ := processStep_decompose pre post row none true hstep
    obtain ⟨f1, f2⟩ := processTail_decompose pre post
    constructor
    · rw [e1, f1]; simp
    · rw [e2, f2]
      have ho : (if (true = true) then 1 else 0) = 1 := rfl
      rw [ho]
      omega
  · intro m iRegion iRrp iSettle pr h2 hD hget hm hr hp hs hdec
    have hstep : stepRecord (schemasAfter [] pre) row =
        (schemasAfter [] pre, some pr, false) := by
      rw [stepRecord_data (schemasAfter [] pre) row m iRegion iRrp iSettle h2 hD
        hget hm hr hp hs, hdec]
    obtain ⟨e1, e2⟩ := processStep_decompose pre post row (some pr) false hstep
    constructor
    · rw [e1]; simp
    · rw [e2]
      have hz : (if (false = true) then 1 else 0) = 0 := rfl
      rw [hz]
      omega
  · intro row2 i h
    simp only [optIntField]
    rw [h]
    simp
  · intro row2
    rfl
  · intro row2 iS iR iP iRun iIntv pr h
    unfold decodeDataRow at h
    split at h
    · next sc rc pc hsc hrc hpc =>
      split at h
      · cases h
      · next rrp hrrp =>
        split at h
        · next rn iv hrn hiv =>
          have hpr := h
          injection hpr with hpr2
          subst hpr2
          exact ⟨hrn, hiv⟩
        · next hcatch => cases h
    · cases h

/-- Witness for C6: the success clause applied to the concrete header
and data records; the emitted row carries the aliased columns and the
blank optional fields as zero. -/
theorem c6_parser_behavior_witness :
    recKind dataRow = ("D") ∧
    decodeDataRow dataRow 4 5 6 (pick (buildMapping hdrRow) runnoAliases)
      (pick (buildMapping hdrRow) intvAliases) =
      some ⟨("2026/01/01 00:05:00"), ("NSW1"), (⟨176, 5⟩ : DecQ), 0, 0⟩ ∧
    (process_csv_with_schema ([hdrRow] ++ dataRow :: [])).1 =
      (process_csv_with_schema [hdrRow]).1 ++
        (⟨("2026/01/01 00:05:00"), ("NSW1"), (⟨176, 5⟩ : DecQ), 0, 0⟩ : PriceRow) ::
          (processAux (schemasAfter [] [hdrRow]) []).1 := by
  refine ⟨by decide, by decide, ?_⟩
  exact ((c6_parser_behavior [hdrRow] [] dataRow).2.2.2.1 (buildMapping hdrRow)
    5 6 4 ⟨("2026/01/01 00:05:00"), ("NSW1"), (⟨176, 5⟩ : DecQ), 0, 0⟩
    (by decide) (by decide) (by decide) (by decide) (by decide) (by decide)
    (by decide) (by decide)).1

lemma storeLookup_cons_ne (k k2 : String × String × Int × Int) (v : DecQ)
    (s : PriceStore) (h : k ≠ k2) :
    storeLookup ((k, v) :: s) k2 = storeLookup s k2 := by
  have hbeq : (k == k2) = false := beq_eq_false_iff_ne.mpr h
  simp [storeLookup, List.find?, hbeq]

lemma upsertStmt_fresh : ∀ (rows : List PriceRow) (s : PriceStore),
    (∀ r ∈ rows, storeLookup s (keyOfRow r) = none) →
    (rows.map keyOfRow).Nodup →
    upsertStmt s rows =
      (rows.foldl (fun acc r => (keyOfRow r, r.rrp) :: acc) s,
       List.replicate rows.length true) := by
  intro rows
  induction rows with
  | nil => intro s _ _; rfl
  | cons r rest ih =>
    intro s hfresh hnodup
    have hlk := hfresh r (List.mem_cons_self r rest)
    have hfresh2 : ∀ r2 ∈ rest, storeLookup ((keyOfRow r, r.rrp) :: s)
        (keyOfRow r2) = none := by
      intro r2 hr2
      have hne : keyOfRow r ≠ keyOfRow r2 := by
        intro hc
        have : keyOfRow r ∈ rest.map keyOfRow := by
          rw [hc]; exact List.mem_map_of_mem keyOfRow hr2
        exact (List.nodup_cons.mp (by simpa using hnodup)).1 this
      rw [storeLookup_cons_ne _ _ _ _ hne]
      exact hfresh r2 (List.mem_cons_of_mem r hr2)
    have hnodup2 : (rest.map keyOfRow).Nodup :=
      (List.nodup_cons.mp (by simpa using hnodup)).2
    simp only [upsertStmt, hlk]
    rw [ih ((keyOfRow r, r.rrp) :: s) hfresh2 hnodup2]
    simp [List.replicate_succ]

lemma storeLookup_foldl_cons_ne (rows : List PriceRow) (s : PriceStore)
    (k : String × String × Int × Int) (hk : k ∉ rows.map keyOfRow)
    (h : storeLookup s k = none) :
    storeLookup (rows.foldl (fun acc r => (keyOfRow r, r.rrp) :: acc) s) k =
      none := by
  induction rows generalizing s with
  | nil => exact h
  | cons r rest ih =>
    rw [List.foldl_cons]
    apply ih
    · intro hc
      exact hk (List.mem_cons_of_mem _ hc)
    · have hne : keyOfRow r ≠ k := by
        intro hc
        exact hk (by rw [← hc]; exact List.mem_cons_self _ _)
      rw [storeLookup_cons_ne _ _ _ _ hne]
      exact h

lemma length_foldl_cons (rows : List PriceRow) (s : PriceStore) :
    (rows.foldl (fun acc r => (keyOfRow r, r.rrp) :: acc) s).length =
      rows.length + s.length := by
  induction rows generalizing s with
  | nil => simp
  | cons r rest ih =>
    rw [List.foldl_cons, ih]
    simp
    omega

lemma execPagesAux_succ (fuel : Nat) (s : PriceStore) (p : Nat)
    (rows : List PriceRow) (last : List Bool) :
    execPagesAux (fuel + 1) s p rows last =
      if rows.isEmpty then (s, last)
      else execPagesAux fuel (upsertStmt s (rows.take p)).1 p (rows.drop p)
        (upsertStmt s (rows.take p)).2 := rfl

lemma keyOfRow_mkRow (i : Nat) :
    keyOfRow (mkRow i) =
      (("2024/01/01 00:05:00"), ("NSW1"), Int.ofNat i, 0) := rfl

lemma mkRow_keys_nodup (n : Nat) :
    (((List.range n).map mkRow).map keyOfRow).Nodup := by
  rw [List.map_map]
  refine List.Nodup.map ?_ (List.nodup_range n)
  intro a b hab
  have h2 : Int.ofNat a = Int.ofNat b := congrArg (fun t => t.2.2.1) hab
  exact Int.ofNat.inj h2

lemma mkRow_key_notmem (n m : Nat) (h : n ≤ m) :
    keyOfRow (mkRow m) ∉ ((List.range n).map mkRow).map keyOfRow := by
  intro hmem
  rw [List.map_map] at hmem
  obtain ⟨i, hi, heq⟩ := List.mem_map.mp hmem
  have h2 : Int.ofNat i = Int.ofNat m := congrArg (fun t => t.2.2.1) heq
  have h3 : i = m := Int.ofNat.inj h2
  have h4 := List.mem_range.mp hi
  omega

lemma execPagesAux_nil (fuel : Nat) (s : PriceStore) (p : Nat)
    (last : List Bool) : execPagesAux fuel s p [] last = (s, last) := by
  cases fuel with
  | zero => rfl
  | succ f => rfl

lemma execPagesAux_two_pages (s : PriceStore) (p : Nat)
    (rowsA rowsB : List PriceRow) (last : List Bool) (hp : 0 < p)
    (hA : rowsA.length = p) (hB : rowsB.isEmpty = false)
    (hBp : rowsB.length ≤ p) :
    execPagesAux ((rowsA ++ rowsB).length) s p (rowsA ++ rowsB) last =
      upsertStmt (upsertStmt s rowsA).1 rowsB := by
  have hBlen : 0 < rowsB.length := by
    cases rowsB with
    | nil => simp at hB
    | cons b bs => simp
  have hABlen : (rowsA ++ rowsB).length = (p + rowsB.length - 1) + 1 := by
    rw [List.length_append, hA]
    omega
  have hABne : (rowsA ++ rowsB).isEmpty = false := by
    cases rowsA with
    | nil => exact hB
    | cons a as => rfl
  rw [hABlen, execPagesAux_succ, hABne]
  simp only [Bool.false_eq_true, if_false]
  rw [List.take_left' hA, List.drop_left' hA]
  have hfuel : p + rowsB.length - 1 = (p + rowsB.length - 2) + 1 := by omega
  rw [hfuel, execPagesAux_succ, hB]
  simp only [Bool.false_eq_true, if_false]
  rw [List.take_of_length_le hBp, List.drop_eq_nil_of_le hBp, execPagesAux_nil]

lemma upsert_two_pages (s : PriceStore) (rowsA rowsB : List PriceRow)
    (S1 S2 : PriceStore) (flags1 flags2 : List Bool)
    (hA : rowsA.length = 5000) (hB : rowsB.isEmpty = false)
    (hBp : rowsB.length ≤ 5000)
    (h1 : upsertStmt s rowsA = (S1, flags1))
    (h2 : upsertStmt S1 rowsB = (S2, flags2)) :
    upsert_dispatch_prices s (rowsA ++ rowsB) =
      (S2, (flags2.countP (fun b => b), flags2.countP (fun b => !b))) := by
  have hABne : (rowsA ++ rowsB).isEmpty = false := by
    cases rowsA with
    | nil => exact hB
    | cons a as => rfl
  unfold upsert_dispatch_prices
  rw [hABne]
  simp only [Bool.false_eq_true, if_false]
  rw [show execute_values_fetchall s 5000 (rowsA ++ rowsB) =
        upsertStmt (upsertStmt s rowsA).1 rowsB from
      execPagesAux_two_pages s 5000 rowsA rowsB [] (by omega) hA hB hBp]
  simp only [h1]
  rw [h2]

/-- C2 failing input evaluated on the code: a batch of 5001 rows with
pairwise distinct natural keys, all absent, applied to an empty store.
All 5001 rows are inserted (the final store has 5001 entries), but the
function returns (1, 0): the 5001-row payload is paged as 5000 plus 1
and only the final one-row page's RETURNING flags are fetched, so the
counts are not (5001, 0) as the claim requires. -/
theorem c2_paging_counts :
    (((List.range 5001).map mkRow).map keyOfRow).Nodup ∧
    (∀ r ∈ (List.range 5001).map mkRow, storeLookup [] (keyOfRow r) = none) ∧
    (upsert_dispatch_prices [] ((List.range 5001).map mkRow)).2 = (1, 0) ∧
    (upsert_dispatch_prices [] ((List.range 5001).map mkRow)).1.length = 5001 ∧
    ((1 : Nat), (0 : Nat)) ≠ ((5001 : Nat), (0 : Nat)) := by
  have hsplit : (List.range 5001).map mkRow =
      (List.range 5000).map mkRow ++ [mkRow 5000] := by
    rw [show (5001 : Nat) = 5000 + 1 from rfl, List.range_succ, List.map_append,
      List.map_singleton]
  have hfreshA : ∀ r ∈ (List.range 5000).map mkRow,
      storeLookup [] (keyOfRow r) = none := fun r _ => rfl
  have hstmt1 := upsertStmt_fresh ((List.range 5000).map mkRow) [] hfreshA
    (mkRow_keys_nodup 5000)
  have hS1 : storeLookup
      (((List.range 5000).map mkRow).foldl
        (fun acc r => (keyOfRow r, r.rrp) :: acc) [])
      (keyOfRow (mkRow 5000)) = none :=
    storeLookup_foldl_cons_ne _ _ _ (mkRow_key_notmem 5000 5000 (le_refl _)) rfl
  have hstmt2 := upsertStmt_fresh [mkRow 5000]
    (((List.range 5000).map mkRow).foldl
      (fun acc r => (keyOfRow r, r.rrp) :: acc) [])
    (by intro r hr
        rw [List.mem_singleton.mp hr]
        exact hS1)
    (by simp)
  have hstmt2' : upsertStmt
      (((List.range 5000).map mkRow).foldl
        (fun acc r => (keyOfRow r, r.rrp) :: acc) [])
      [mkRow 5000] =
      ((keyOfRow (mkRow 5000), (mkRow 5000).rrp) ::
        ((List.range 5000).map mkRow).foldl
          (fun acc r => (keyOfRow r, r.rrp) :: acc) [],
       [true]) := hstmt2
  have hfull := upsert_two_pages [] ((List.range 5000).map mkRow) [mkRow 5000]
    _ _ _ _ (by simp) rfl (by simp) hstmt1 hstmt2'
  refine ⟨mkRow_keys_nodup 5001, fun r _ => rfl, ?_, ?_, by decide⟩
  · rw [hsplit, hfull]
    rfl
  · rw [hsplit, hfull]
    show ((keyOfRow (mkRow 5000), (mkRow 5000).rrp) ::
      ((List.range 5000).map mkRow).foldl
        (fun acc r => (keyOfRow r, r.rrp) :: acc) []).length = 5001
    rw [List.length_cons, length_foldl_cons]
    simp
